import Mathlib

/-
Verification of the MelodyKit offline rendering core
(src/Backend/src/BackendHost.cpp, src/Backend/src/BackendHost.h).

The C++ code is shallowly embedded over exact rational arithmetic:
every `double`/`float` of the source becomes a `ℚ`, machine `int`
becomes `ℤ` (the renders involved stay far from any overflow), and the
external collaborators (JUCE readers/writers, VST plugins,
TinySoundFont) appear as abstract oracles.  Each definition mirrors one
region of `BackendHost.cpp`; the mirrored lines are cited next to the
definition.
-/

namespace MelodyKit


/-- Truncation toward zero, the semantics of a C++ `static_cast<int>` /
`(int)` conversion applied to a non-overflowing floating value. -/
def cppTrunc (q : ℚ) : ℤ := if 0 ≤ q then ⌊q⌋ else ⌈q⌉

/-- `juce::jlimit (lower, upper, value)` on integers:
`value < lower ? lower : upper < value ? upper : value`. -/
def jlimitInt (lo hi v : ℤ) : ℤ := if v < lo then lo else if hi < v then hi else v

/-- `juce::jlimit (lower, upper, value)` on floating values (exact model). -/
def jlimitQ (lo hi v : ℚ) : ℚ := if v < lo then lo else if hi < v then hi else v

/-- One step of the running-maximum pattern
`if (endTime > totalDuration) totalDuration = endTime;`
used throughout `BackendHost::renderToWav` (lines 1001-1080). -/
def accMax (acc e : ℚ) : ℚ := if e > acc then e else acc

/-! ## Master-buffer peak normalization (BackendHost.cpp lines 1328-1333)

The master buffer is modelled as the list of all of its sample values
(channel-major traversal; `getMagnitude` and `applyGain` act uniformly
on every sample of every channel, so the traversal order is irrelevant
to both). -/

/-- `AudioBuffer::getMagnitude (0, totalSamples)`: the maximum absolute
value over all samples of the buffer, `0` for an empty range. -/
def bufferMagnitude (buf : List ℚ) : ℚ :=
  buf.foldl (fun acc s => max acc |s|) 0

/-- Lines 1329-1333 of BackendHost.cpp:
`maxLevel = getMagnitude; if (maxLevel > 0.99f) applyGain (0.99f / maxLevel)`. -/
def normalizeBuffer (buf : List ℚ) : List ℚ :=
  let maxLevel := bufferMagnitude buf
  if maxLevel > 99 / 100 then
    let gain := 99 / 100 / maxLevel
    buf.map (fun s => s * gain)
  else buf

/-! ## Render-request data model (BackendHost.h lines 22-57) -/

/-- `MidiNoteEvent` (BackendHost.h lines 23-35). -/
structure MidiNoteEvent where
  trackId : String
  startTimeSeconds : ℚ
  durationSeconds : ℚ
  midiNote : ℤ
  velocity01 : ℚ
  channel : ℤ
deriving DecidableEq, Repr

/-- End time of a note, `note.startTimeSeconds + note.durationSeconds`
(BackendHost.cpp line 1004). -/
def noteEndTime (n : MidiNoteEvent) : ℚ := n.startTimeSeconds + n.durationSeconds

/-- `BeatSample` (BackendHost.h lines 38-41): a decoded planar PCM buffer
(`data ch i` is `buffer.getSample (ch, i)`) plus its source sample rate. -/
structure BeatSample where
  sampleRate : ℚ
  numChannels : ℕ
  numSamples : ℕ
  data : ℕ → ℕ → ℚ

/-- `BeatRenderEvent` (BackendHost.h lines 44-49). -/
structure BeatRenderEvent where
  trackId : String
  rowId : String
  startTimeSeconds : ℚ
  gainLinear : ℚ
deriving DecidableEq, Repr

/-- `BeatJob` (BackendHost.cpp lines 1009-1013): a beat event resolved to
its loaded sample. -/
structure BeatJob where
  sample : BeatSample
  startTimeSeconds : ℚ
  gain : ℚ

/-- `AudioClipRenderEvent` (BackendHost.h lines 52-57); the `juce::File`
is modelled by its path. -/
structure AudioClipRenderEvent where
  trackId : String
  filePath : String
  startTimeSeconds : ℚ
  gainLinear : ℚ
deriving DecidableEq, Repr

/-- The data obtained by decoding an audio-clip file
(BackendHost.cpp lines 1038-1042): channel count, `lengthInSamples`
(an `int64`, hence `ℤ`), source rate and the planar sample data. -/
structure ClipData where
  numChannels : ℕ
  numSamples : ℤ
  sourceRate : ℚ
  data : ℕ → ℕ → ℚ

/-- `LoadedAudioClip` (BackendHost.cpp lines 1038-1042). -/
structure LoadedAudioClip where
  event : AudioClipRenderEvent
  clip : ClipData

/-! ## Total duration and sample count (BackendHost.cpp lines 1001-1081)

The beat-sample table (`beatSamples`, a two-level map) is abstracted as
`table : String → String → Option BeatSample`; `none` covers a missing
track entry, a missing row entry and a null sample pointer, the three
`continue`-with-warning cases of lines 1018-1027.  Decoding an audio
clip file (lines 1045-1063) is abstracted as
`readFile : String → Option ClipData`; `none` covers a missing file, an
unsupported format and a failed read, the three warning cases. -/

/-- `juce::jmax (a, b)` on integers: `a < b ? b : a`. -/
def jmaxInt (a b : ℤ) : ℤ := if a < b then b else a

/-- Lines 1002-1006: running maximum of note end times, started from the
initial `totalDuration` value. -/
def notesMaxEnd (notes : List MidiNoteEvent) (d : ℚ) : ℚ :=
  notes.foldl (fun acc n => accMax acc (noteEndTime n)) d

/-- Resolution of one beat event against the sample table
(the lookups and skip conditions of lines 1018-1029). -/
def resolveBeatEvent (table : String → String → Option BeatSample)
    (ev : BeatRenderEvent) : Option BeatJob :=
  match table ev.trackId ev.rowId with
  | none => none
  | some s => if s.numSamples = 0 then none else some ⟨s, ev.startTimeSeconds, ev.gainLinear⟩

/-- End time contributed by a resolved beat job (lines 1030-1031):
`ev.startTimeSeconds + numSamples / sampleRate`. -/
def beatJobEnd (j : BeatJob) : ℚ :=
  j.startTimeSeconds + (j.sample.numSamples : ℚ) / j.sample.sampleRate

/-- One iteration of the beat-preload loop (lines 1017-1034): a
resolvable event extends the running duration maximum and appends a
`BeatJob`; an unresolvable one is skipped. -/
def resolveBeatStep (table : String → String → Option BeatSample)
    (acc : ℚ × List BeatJob) (ev : BeatRenderEvent) : ℚ × List BeatJob :=
  match table ev.trackId ev.rowId with
  | none => acc
  | some s =>
    if s.numSamples = 0 then acc
    else
      let sampleDuration := (s.numSamples : ℚ) / s.sampleRate
      let endTime := ev.startTimeSeconds + sampleDuration
      (accMax acc.1 endTime, acc.2 ++ [⟨s, ev.startTimeSeconds, ev.gainLinear⟩])

/-- The beat-preload loop of lines 1015-1035, returning the updated
duration maximum together with the collected `beatJobs`. -/
def resolveBeatJobs (table : String → String → Option BeatSample)
    (events : List BeatRenderEvent) (d : ℚ) : ℚ × List BeatJob :=
  events.foldl (resolveBeatStep table) (d, [])

/-- End time contributed by a loaded clip (lines 1065-1066):
`clip.startTimeSeconds + numSamples / sourceRate`. -/
def clipEndTime (l : LoadedAudioClip) : ℚ :=
  l.event.startTimeSeconds + (l.clip.numSamples : ℚ) / l.clip.sourceRate

/-- Decoding of one audio-clip event (the skip conditions of
lines 1044-1063, including the `numSamples <= 0` check of line 1057). -/
def loadClipEvent (readFile : String → Option ClipData)
    (ev : AudioClipRenderEvent) : Option LoadedAudioClip :=
  match readFile ev.filePath with
  | none => none
  | some c => if c.numSamples ≤ 0 then none else some ⟨ev, c⟩

/-- One iteration of the clip-preload loop (lines 1044-1074). -/
def loadClipStep (readFile : String → Option ClipData)
    (acc : ℚ × List LoadedAudioClip) (ev : AudioClipRenderEvent) : ℚ × List LoadedAudioClip :=
  match readFile ev.filePath with
  | none => acc
  | some c =>
    if c.numSamples ≤ 0 then acc
    else
      let clipDuration := (c.numSamples : ℚ) / c.sourceRate
      let endTime := ev.startTimeSeconds + clipDuration
      (accMax acc.1 endTime, acc.2 ++ [⟨ev, c⟩])

/-- The clip-preload loop of lines 1043-1074, returning the updated
duration maximum together with the collected `loadedClips`. -/
def loadAudioClips (readFile : String → Option ClipData)
    (clips : List AudioClipRenderEvent) (d : ℚ) : ℚ × List LoadedAudioClip :=
  clips.foldl (loadClipStep readFile) (d, [])

/-- `totalDuration` as computed by lines 1001-1077: notes first, then
resolvable beat jobs, then loadable clips, then the fixed 2-second tail. -/
def totalDurationModel (table : String → String → Option BeatSample)
    (readFile : String → Option ClipData) (notes : List MidiNoteEvent)
    (beats : List BeatRenderEvent) (clips : List AudioClipRenderEvent) : ℚ :=
  let d1 := notesMaxEnd notes 0
  let d2 := (resolveBeatJobs table beats d1).1
  let d3 := (loadAudioClips readFile clips d2).1
  d3 + 2

/-- `totalSamples` (line 1080):
`juce::jmax (1, static_cast<int> (totalDuration * sampleRate))`. -/
def totalSamplesModel (table : String → String → Option BeatSample)
    (readFile : String → Option ClipData) (notes : List MidiNoteEvent)
    (beats : List BeatRenderEvent) (clips : List AudioClipRenderEvent)
    (sampleRate : ℚ) : ℤ :=
  jmaxInt 1 (cppTrunc (totalDurationModel table readFile notes beats clips * sampleRate))

/-- All end times that actually enter the duration maximum: note end
times, end times of resolvable beat jobs, end times of loadable clips. -/
def allEndTimes (table : String → String → Option BeatSample)
    (readFile : String → Option ClipData) (notes : List MidiNoteEvent)
    (beats : List BeatRenderEvent) (clips : List AudioClipRenderEvent) : List ℚ :=
  notes.map noteEndTime
    ++ (beats.filterMap (resolveBeatEvent table)).map beatJobEnd
    ++ (clips.filterMap (loadClipEvent readFile)).map clipEndTime

/-- The total sample count exactly as Claim C1 words it, for comparison
with `totalSamplesModel` (which is the code): the maximum ranges over
the end times alone, with no implicit lower bound of `0`. -/
def claimC1TotalSamples (table : String → String → Option BeatSample)
    (readFile : String → Option ClipData) (notes : List MidiNoteEvent)
    (beats : List BeatRenderEvent) (clips : List AudioClipRenderEvent)
    (sampleRate : ℚ) : ℤ :=
  match allEndTimes table readFile notes beats clips with
  | [] => jmaxInt 1 (cppTrunc (2 * sampleRate))
  | e :: rest => jmaxInt 1 (cppTrunc ((rest.foldl max e + 2) * sampleRate))

/-! ## Per-track event timeline (BackendHost.cpp lines 1195-1210)

`SF2Event` mirrors the struct of line 1195.  The VST path builds the
same `(samplePosition, noteOn/noteOff)` pairs at lines 1124-1141 with
identical position arithmetic, clamping and sorting, so one embedding
covers both backends.  `std::sort` (lines 1140-1141 and 1208-1210) only
guarantees a permutation of its input that is nondecreasing for the
comparator; it is NOT a stable sort, so its result is modelled as a
relation over output lists rather than a function. -/

/-- `SF2Event` (BackendHost.cpp line 1195). -/
structure SF2Event where
  samplePos : ℤ
  noteOn : Bool
  midiNote : ℤ
  velocity : ℚ
  channel : ℤ
deriving DecidableEq, Repr

/-- The two timeline entries pushed for one note (lines 1197-1205): a
NoteOn and then a NoteOff, positions truncated from seconds and clamped
into `[0, totalSamples-1]`, velocity clamped into `[0,1]`. -/
def noteTimelineEvents (sampleRate : ℚ) (totalSamples : ℤ) (n : MidiNoteEvent) :
    List SF2Event :=
  let samplePos := jlimitInt 0 (totalSamples - 1) (cppTrunc (n.startTimeSeconds * sampleRate))
  let noteOffPos := jlimitInt 0 (totalSamples - 1)
    (cppTrunc ((n.startTimeSeconds + n.durationSeconds) * sampleRate))
  let velocity := jlimitQ 0 1 n.velocity01
  [⟨samplePos, true, n.midiNote, velocity, n.channel⟩,
    ⟨noteOffPos, false, n.midiNote, velocity, n.channel⟩]

/-- The pre-sort timeline of the loop at lines 1196-1206: each note
appends its NoteOn entry and then its NoteOff entry. -/
def buildTimeline (sampleRate : ℚ) (totalSamples : ℤ) (notes : List MidiNoteEvent) :
    List SF2Event :=
  notes.foldl (fun acc n => acc ++ noteTimelineEvents sampleRate totalSamples n) []

/-- Postcondition of the `std::sort` calls (lines 1140-1141, 1208-1210):
any permutation of the input that is nondecreasing in `samplePos` is a
legal result.  The C++ standard gives `std::sort` no stability
guarantee, so equal positions may appear in any order. -/
def isStdSortResult (out inp : List SF2Event) : Prop :=
  inp.Perm out ∧ out.Sorted (fun a b => a.samplePos ≤ b.samplePos)

/-! ## Voice playback mixing (BackendHost.cpp lines 1274-1300 offline,
lines 161-203 live)

A planar stereo render buffer is a function from channel index and
sample index to the sample value. -/

/-- A planar render buffer: `buf ch i` is `buffer.getSample (ch, i)`. -/
abbrev Buffer : Type := ℕ → ℤ → ℚ

/-- `AudioBuffer::addSample (ch, i, v)`: add `v` at one position and
leave every other position untouched. -/
def addSample (buf : Buffer) (ch : ℕ) (i : ℤ) (v : ℚ) : Buffer :=
  fun c j => if c = ch ∧ j = i then buf c j + v else buf c j

/-- Source-channel selection (lines 186, 1293, 1319):
`(srcChannels == 1) ? 0 : jmin (ch, srcChannels - 1)`. -/
def srcChannelFor (srcChannels ch : ℕ) : ℕ :=
  if srcChannels = 1 then 0 else min ch (srcChannels - 1)

/-- The shared linear-interpolation kernel (offline beat jobs
lines 1287-1296; identical at lines 179-189 of the live mixer and
lines 1313-1322 of the clip mixer): `idx = (int) srcPos`,
`frac = srcPos - idx`, `out = (1-frac)*s0 + frac*s1`, a missing
trailing neighbour read as `0`. -/
def interpolatedSample (sample : BeatSample) (srcPos : ℚ) (ch : ℕ) : ℚ :=
  let idx := cppTrunc srcPos
  let frac := srcPos - (idx : ℚ)
  let srcCh := srcChannelFor sample.numChannels ch
  let s0 := sample.data srcCh idx.toNat
  let s1 := if idx + 1 < (sample.numSamples : ℤ) then sample.data srcCh (idx + 1).toNat else 0
  (1 - frac) * s0 + frac * s1

/-- The destination loop of lines 1286-1299, recursing on the number of
remaining destination frames.  The output channel count is fixed at 2
(line 1081), so the inner channel loop is unrolled into channels 0
and 1; the `break` of line 1289 fires when the truncated source
position reaches the end of the source. -/
def mixJobFrom (sample : BeatSample) (gain ratio : ℚ) (startSample : ℤ)
    (buf : Buffer) (dest : ℤ) : ℕ → Buffer
  | 0 => buf
  | fuel + 1 =>
    let srcPos := ((dest - startSample : ℤ) : ℚ) * ratio
    let idx := cppTrunc srcPos
    if (sample.numSamples : ℤ) ≤ idx then buf
    else
      let buf2 := addSample (addSample buf 0 dest (interpolatedSample sample srcPos 0 * gain))
        1 dest (interpolatedSample sample srcPos 1 * gain)
      mixJobFrom sample gain ratio startSample buf2 (dest + 1) fuel

/-- Lines 1275-1300: mix one resolved beat job into the render buffer.
`ratio = sampleRate / rate` (line 1283),
`startSample = jlimit (0, totalSamples-1, (int) floor (start * rate))`
(line 1284), and the loop runs `dest` from `startSample` up to
`totalSamples - 1`. -/
def mixBeatJob (rate : ℚ) (totalSamples : ℤ) (buf : Buffer) (job : BeatJob) : Buffer :=
  let ratio := job.sample.sampleRate / rate
  let startSample := jlimitInt 0 (totalSamples - 1) ⌊job.startTimeSeconds * rate⌋
  mixJobFrom job.sample job.gain ratio startSample buf startSample
    (totalSamples - startSample).toNat

/-- The gain-free contribution the job loop adds at each position,
defined by the same recursion as `mixJobFrom`. -/
def jobContrib (sample : BeatSample) (ratio : ℚ) (startSample : ℤ) :
    ℤ → ℕ → ℕ → ℤ → ℚ
  | _, 0, _, _ => 0
  | dest, fuel + 1, ch, i =>
    let srcPos := ((dest - startSample : ℤ) : ℚ) * ratio
    let idx := cppTrunc srcPos
    if (sample.numSamples : ℤ) ≤ idx then 0
    else
      (if (ch = 0 ∨ ch = 1) ∧ i = dest then interpolatedSample sample srcPos ch else 0) +
        jobContrib sample ratio startSample (dest + 1) fuel ch i

/-- The per-voice inner loop of the live mixer
(`BeatAudioCallback::audioDeviceIOCallbackWithContext`, lines 175-196):
for each output frame, stop (`finished`) once the truncated source
position has passed the end of the source; otherwise add the
interpolated sample scaled by the voice gain into every output channel
and advance the position by the resample ratio.  The stereo output
channel loop is unrolled into channels 0 and 1; the result is the
updated output buffer, the voice's new position, and the `finished`
flag. -/
def voiceLoop (sample : BeatSample) (gain ratio : ℚ) (buf : Buffer) (pos : ℚ)
    (i : ℤ) : ℕ → Buffer × ℚ × Bool
  | 0 => (buf, pos, false)
  | fuel + 1 =>
    let idx := cppTrunc pos
    if (sample.numSamples : ℤ) ≤ idx then (buf, pos, true)
    else
      let buf2 := addSample (addSample buf 0 i (interpolatedSample sample pos 0 * gain))
        1 i (interpolatedSample sample pos 1 * gain)
      voiceLoop sample gain ratio buf2 (pos + ratio) (i + 1) fuel

/-! ## Live one-shot voices (BackendHost.cpp lines 559-575) and
offline voice gain -/

/-- `BackendHost::BeatVoice` (BackendHost.h lines 119-123). -/
structure BeatVoice where
  sample : BeatSample
  position : ℚ
  gain : ℚ

/-- `BackendHost::triggerBeat` (BackendHost.cpp lines 559-575): look the
row's sample up; if missing or empty, do nothing; otherwise append a
voice at position 0 whose gain is `jlimit (0.0f, 4.0f, gainLinear)`
(line 573). -/
def triggerBeat (table : String → String → Option BeatSample)
    (voices : List BeatVoice) (trackId rowId : String) (gainLinear : ℚ) :
    List BeatVoice :=
  match table trackId rowId with
  | none => voices
  | some s =>
    if s.numSamples = 0 then voices
    else voices ++ [⟨s, 0, jlimitQ 0 4 gainLinear⟩]

/-! ## Master mixdown accumulation (BackendHost.cpp lines 1268-1300) -/

/-- Lines 1269-1271: `renderBuffer.addFrom (ch, 0, trackBuffer, ch, 0,
totalSamples)` for channels 0 and 1: pointwise addition over the sample
range `[0, totalSamples)`. -/
def addTrackBuffer (totalSamples : ℤ) (master tb : Buffer) : Buffer :=
  fun ch i =>
    if (ch = 0 ∨ ch = 1) ∧ 0 ≤ i ∧ i < totalSamples
    then master ch i + tb ch i
    else master ch i

/-- The per-track accumulation of the loop at lines 1094-1272: every
rendered (gain-applied) track buffer is summed into the master. -/
def mixTrackBuffers (totalSamples : ℤ) (tbs : List Buffer) (master : Buffer) : Buffer :=
  tbs.foldl (addTrackBuffer totalSamples) master

/-- The beat-job loop of lines 1275-1300 over the whole job list. -/
def mixBeatJobs (rate : ℚ) (totalSamples : ℤ) (jobs : List BeatJob) (buf : Buffer) :
    Buffer :=
  jobs.foldl (mixBeatJob rate totalSamples) buf

/-! ## Upfront validation and WAV write-out (BackendHost.cpp
lines 981-997 and 1335-1368) -/

/-- Content of the file at the output path: `created` is the zero-byte
file `createOutputStream` just made, `incomplete` holds a header and
only part of the sample data, `complete` is the finalized WAV. -/
inductive FileContent where
  | created
  | incomplete
  | complete
deriving DecidableEq, Repr

/-- Success/failure of the three external encoder steps of
lines 1338-1359: `File::createOutputStream`,
`WavAudioFormat::createWriterFor` and `writeFromAudioSampleBuffer`. -/
structure EncoderEnv where
  openOk : Bool
  writerOk : Bool
  writeOk : Bool
deriving DecidableEq, Repr

/-- Lines 1335-1368: `outputPath.deleteFile()` (line 1336), open the
output stream (failure → return false, no file was created), construct
the WAV writer (failure → return false; the stream's destructor closes
the freshly created zero-byte file, which stays on disk), write the
sample data (failure → return false, partial file), flush and return
true.  The result is the returned flag, `errorMessage`, and the final
content of the output path (`none` = no file there). -/
def writeWavPhase (env : EncoderEnv) (outputPath : String) (fs : Option FileContent) :
    Bool × String × Option FileContent :=
  let fsDeleted : Option FileContent := none
  if env.openOk = false then
    (false, "Failed to create output file: " ++ outputPath, fsDeleted)
  else
    let fsOpened : Option FileContent := some .created
    if env.writerOk = false then
      (false, "Failed to create WAV writer", fsOpened)
    else
      if env.writeOk = false then
        (false, "Failed to write audio data to file", some .incomplete)
      else
        (true, "", some .complete)

/-- Lines 988-997: the upfront validation of `renderToWav`.  Everything
after validation — preloading, rendering, mixing and the write phase —
is abstracted as `cont`, which receives the untouched file state; a
validation failure returns before `cont` can run. -/
def renderToWavValidated
    (cont : Option FileContent → Bool × String × Option FileContent)
    (bitDepth : ℤ) (notes : List MidiNoteEvent) (beats : List BeatRenderEvent)
    (clips : List AudioClipRenderEvent) (fs : Option FileContent) :
    Bool × String × Option FileContent :=
  if bitDepth ≠ 16 ∧ bitDepth ≠ 24 ∧ bitDepth ≠ 32 then
    (false, "Invalid bit depth. Must be 16, 24, or 32", fs)
  else if notes = [] ∧ beats = [] ∧ clips = [] then
    (false, "Nothing to render", fs)
  else cont fs

/-! ## Offline render loops (BackendHost.cpp lines 1143-1184 for the VST
path, lines 1212-1256 for the event-driven SF2 path) -/

/-- `juce::jmin (a, b)`: `b < a ? b : a`. -/
def jminInt (a b : ℤ) : ℤ := if b < a then b else a

/-- The fixed render block size (`const int blockSize = 512`,
line 1079). -/
def renderBlockSize : ℤ := 512

/-- Line 1235: the sample position of the first unprocessed timeline
event, or `totalSamples` when every event has been dispatched. -/
def nextEventSample (timeline : List SF2Event) (eventIndex : ℕ) (totalSamples : ℤ) : ℤ :=
  match timeline.get? eventIndex with
  | some ev => ev.samplePos
  | none => totalSamples

/-- The `dispatchEventsUpTo` lambda of lines 1218-1229: dispatch, in
timeline order, every event from `i` on whose position is at most
`samplePos`; returns the new event index and the dispatch trace (each
dispatched event paired with the cursor value at dispatch time). -/
def dispatchFrom (timeline : List SF2Event) (samplePos : ℤ) (i : ℕ) :
    ℕ × List (SF2Event × ℤ) :=
  match h : timeline.get? i with
  | none => (i, [])
  | some ev =>
    if ev.samplePos ≤ samplePos then
      let r := dispatchFrom timeline samplePos (i + 1)
      (r.1, (ev, samplePos) :: r.2)
    else (i, [])
termination_by timeline.length - i
decreasing_by
  have hlt : i < timeline.length := List.get?_eq_some.mp h |>.1
  omega

/-- State of the event-driven while-loop (lines 1215-1216 plus traces):
`chunkLog` records `(cursor, eventIndex, chunkLength)` per iteration,
`dispatchLog` records every dispatched event with the cursor value at
its dispatch. -/
structure SF2RenderState where
  currentSample : ℤ
  eventIndex : ℕ
  chunkLog : List (ℤ × ℕ × ℤ)
  dispatchLog : List (SF2Event × ℤ)
deriving DecidableEq, Repr

/-- The while-loop of lines 1234-1256: while the cursor has not reached
`totalSamples`, render
`jmin (blockSize, jmin (remaining, jmax (1, nextEventSample - cursor)))`
frames (lines 1235-1238), advance the cursor, then dispatch every event
at or before the new cursor (line 1255). -/
def sf2RenderLoop (timeline : List SF2Event) (totalSamples : ℤ) (st : SF2RenderState) :
    SF2RenderState :=
  if h : st.currentSample < totalSamples then
    let next := nextEventSample timeline st.eventIndex totalSamples
    let remaining := totalSamples - st.currentSample
    let untilNext := jmaxInt 1 (next - st.currentSample)
    let samplesThisBlock := jminInt renderBlockSize (jminInt remaining untilNext)
    let d := dispatchFrom timeline (st.currentSample + samplesThisBlock) st.eventIndex
    sf2RenderLoop timeline totalSamples
      { currentSample := st.currentSample + samplesThisBlock
        eventIndex := d.1
        chunkLog := st.chunkLog ++ [(st.currentSample, st.eventIndex, samplesThisBlock)]
        dispatchLog := st.dispatchLog ++ d.2 }
  else st
termination_by (totalSamples - st.currentSample).toNat
decreasing_by
  simp only [jminInt, jmaxInt, renderBlockSize]
  split_ifs <;> omega

/-- The full event-driven render of lines 1212-1256: fire the events
scheduled at time 0 (line 1232), then run the chunk loop from cursor 0. -/
def sf2Render (timeline : List SF2Event) (totalSamples : ℤ) : SF2RenderState :=
  let d0 := dispatchFrom timeline 0 0
  sf2RenderLoop timeline totalSamples
    { currentSample := 0, eventIndex := d0.1, chunkLog := [], dispatchLog := d0.2 }

/-- The inner MIDI-collection while-loop of the VST block path
(lines 1154-1170): advance `midiIndex` past events before the block,
stop at the first event at or beyond the block end, and consume the
events inside the block.  Only the positions matter here. -/
def midiIndexAfterBlock (positions : List ℤ) (currentSample samplesThisBlock : ℤ)
    (i : ℕ) : ℕ :=
  match h : positions.get? i with
  | none => i
  | some p =>
    if p < currentSample then
      midiIndexAfterBlock positions currentSample samplesThisBlock (i + 1)
    else if currentSample + samplesThisBlock ≤ p then i
    else midiIndexAfterBlock positions currentSample samplesThisBlock (i + 1)
termination_by positions.length - i
decreasing_by
  all_goals
    have hlt : i < positions.length := List.get?_eq_some.mp h |>.1
    omega

/-- State of the VST-path block loop (lines 1144-1145 plus a block-length
trace). -/
structure PluginRenderState where
  currentSample : ℤ
  midiIndex : ℕ
  blockLog : List ℤ
deriving DecidableEq, Repr

/-- The block loop of lines 1147-1184: fixed-size blocks of
`jmin (blockSize, totalSamples - currentSample)` frames (line 1148),
collecting the MIDI events inside each block. -/
def pluginRenderLoop (positions : List ℤ) (totalSamples : ℤ) (st : PluginRenderState) :
    PluginRenderState :=
  if h : st.currentSample < totalSamples then
    let samplesThisBlock := jminInt renderBlockSize (totalSamples - st.currentSample)
    pluginRenderLoop positions totalSamples
      { currentSample := st.currentSample + samplesThisBlock
        midiIndex := midiIndexAfterBlock positions st.currentSample samplesThisBlock st.midiIndex
        blockLog := st.blockLog ++ [samplesThisBlock] }
  else st
termination_by (totalSamples - st.currentSample).toNat
decreasing_by
  simp only [jminInt, renderBlockSize]
  split_ifs <;> omega

/-! ## Theorems -/

theorem accMax_eq_max (acc e : ℚ) : accMax acc e = max acc e := by
  unfold accMax
  rcases le_or_lt e acc with h | h
  · simp [max_eq_left h, not_lt.mpr h]
  · simp [h, max_eq_right h.le]

theorem bufferMagnitude_foldl_nonneg (buf : List ℚ) (a : ℚ) (ha : 0 ≤ a) :
    0 ≤ buf.foldl (fun acc s => max acc |s|) a := by
  induction buf generalizing a with
  | nil => exact ha
  | cons x xs ih => exact ih _ (le_trans ha (le_max_left _ _))

theorem bufferMagnitude_nonneg (buf : List ℚ) : 0 ≤ bufferMagnitude buf :=
  bufferMagnitude_foldl_nonneg buf 0 le_rfl

theorem bufferMagnitude_map_mul (buf : List ℚ) (c : ℚ) (hc : 0 ≤ c) :
    bufferMagnitude (buf.map (fun s => s * c)) = c * bufferMagnitude buf := by
  unfold bufferMagnitude
  have key : ∀ (l : List ℚ) (a : ℚ),
      (l.map (fun s => s * c)).foldl (fun acc s => max acc |s|) (c * a) =
        c * l.foldl (fun acc s => max acc |s|) a := by
    intro l
    induction l with
    | nil => intro a; rfl
    | cons x xs ih =>
      intro a
      have habs : |x * c| = c * |x| := by
        rw [abs_mul, abs_of_nonneg hc, mul_comm]
      have hstep : max (c * a) |x * c| = c * max a |x| := by
        rw [habs, mul_max_of_nonneg _ _ hc]
      simpa [hstep] using ih (max a |x|)
  simpa using key buf 0

/-- Claim C2: after mixing, if the peak absolute magnitude of the master
buffer exceeds 0.99, every sample is multiplied by the single scalar
`0.99 / peak` (so the new peak is exactly 0.99 and the result is a
uniform scalar multiple of the original); if the peak is at most 0.99
the buffer is left completely unchanged by normalization. -/
theorem C2_normalize_peak (buf : List ℚ) :
    (bufferMagnitude buf ≤ 99 / 100 → normalizeBuffer buf = buf) ∧
    (99 / 100 < bufferMagnitude buf →
      normalizeBuffer buf = buf.map (fun s => s * (99 / 100 / bufferMagnitude buf)) ∧
      bufferMagnitude (normalizeBuffer buf) = 99 / 100) := by
  constructor
  · intro hle
    unfold normalizeBuffer
    simp [not_lt.mpr hle]
  · intro hgt
    have hpos : 0 < bufferMagnitude buf := lt_trans (by norm_num) hgt
    have hne : bufferMagnitude buf ≠ 0 := ne_of_gt hpos
    have hgain : (0 : ℚ) ≤ 99 / 100 / bufferMagnitude buf := by positivity
    constructor
    · unfold normalizeBuffer
      simp [hgt]
    · unfold normalizeBuffer
      simp only [hgt, if_pos]
      rw [bufferMagnitude_map_mul buf _ hgain]
      field_simp
      ring

/-- Witness for C2 at the concrete buffer `[1, -2]`, whose peak is `2 > 0.99`. -/
theorem C2_normalize_peak_witness :
    99 / 100 < bufferMagnitude [(1 : ℚ), -2] ∧
    (normalizeBuffer [(1 : ℚ), -2] =
        [(1 : ℚ), -2].map (fun s => s * (99 / 100 / bufferMagnitude [(1 : ℚ), -2])) ∧
      bufferMagnitude (normalizeBuffer [(1 : ℚ), -2]) = 99 / 100) :=
  ⟨by norm_num [bufferMagnitude], (C2_normalize_peak [(1 : ℚ), -2]).2 (by norm_num [bufferMagnitude])⟩

theorem jmaxInt_eq_max (a b : ℤ) : jmaxInt a b = max a b := by
  unfold jmaxInt
  rcases le_or_lt b a with h | h
  · simp [not_lt.mpr h, max_eq_left h]
  · simp [h, max_eq_right h.le]

theorem foldl_accMax_map {α : Type} (g : α → ℚ) (l : List α) (d : ℚ) :
    l.foldl (fun acc x => accMax acc (g x)) d = (l.map g).foldl max d := by
  induction l generalizing d with
  | nil => rfl
  | cons x xs ih =>
    rw [List.map_cons, List.foldl_cons, List.foldl_cons, accMax_eq_max]
    exact ih _

theorem foldl_max_perm {l₁ l₂ : List ℚ} (p : l₁.Perm l₂) (d : ℚ) :
    l₁.foldl max d = l₂.foldl max d := by
  induction p generalizing d with
  | nil => rfl
  | cons x _ ih => simp only [List.foldl_cons]; exact ih _
  | swap x y l =>
    have h : max (max d y) x = max (max d x) y := by
      rw [max_assoc, max_assoc, max_comm y x]
    simp only [List.foldl_cons]
    rw [h]
  | trans _ _ ih₁ ih₂ => exact (ih₁ d).trans (ih₂ d)

theorem resolveBeatStep_eq (table : String → String → Option BeatSample)
    (acc : ℚ × List BeatJob) (ev : BeatRenderEvent) :
    resolveBeatStep table acc ev =
      match resolveBeatEvent table ev with
      | none => acc
      | some j => (accMax acc.1 (beatJobEnd j), acc.2 ++ [j]) := by
  unfold resolveBeatStep resolveBeatEvent
  cases table ev.trackId ev.rowId with
  | none => rfl
  | some s =>
    by_cases h : s.numSamples = 0
    · simp [h]
    · simp [h, beatJobEnd]

theorem resolveBeatJobs_eq (table : String → String → Option BeatSample)
    (events : List BeatRenderEvent) (d : ℚ) (js : List BeatJob) :
    events.foldl (resolveBeatStep table) (d, js) =
      (((events.filterMap (resolveBeatEvent table)).map beatJobEnd).foldl max d,
        js ++ events.filterMap (resolveBeatEvent table)) := by
  induction events generalizing d js with
  | nil => simp
  | cons ev rest ih =>
    simp only [List.foldl, resolveBeatStep_eq]
    cases h : resolveBeatEvent table ev with
    | none => simp [h, ih]
    | some j => simp [h, ih, accMax_eq_max]

theorem loadClipStep_eq (readFile : String → Option ClipData)
    (acc : ℚ × List LoadedAudioClip) (ev : AudioClipRenderEvent) :
    loadClipStep readFile acc ev =
      match loadClipEvent readFile ev with
      | none => acc
      | some l => (accMax acc.1 (clipEndTime l), acc.2 ++ [l]) := by
  unfold loadClipStep loadClipEvent
  cases readFile ev.filePath with
  | none => rfl
  | some c =>
    by_cases h : c.numSamples ≤ 0
    · simp [h]
    · simp [h, clipEndTime]

theorem loadAudioClips_eq (readFile : String → Option ClipData)
    (clips : List AudioClipRenderEvent) (d : ℚ) (ls : List LoadedAudioClip) :
    clips.foldl (loadClipStep readFile) (d, ls) =
      (((clips.filterMap (loadClipEvent readFile)).map clipEndTime).foldl max d,
        ls ++ clips.filterMap (loadClipEvent readFile)) := by
  induction clips generalizing d ls with
  | nil => simp
  | cons ev rest ih =>
    simp only [List.foldl, loadClipStep_eq]
    cases h : loadClipEvent readFile ev with
    | none => simp [h, ih]
    | some l => simp [h, ih, accMax_eq_max]

theorem totalDurationModel_eq (table : String → String → Option BeatSample)
    (readFile : String → Option ClipData) (notes : List MidiNoteEvent)
    (beats : List BeatRenderEvent) (clips : List AudioClipRenderEvent) :
    totalDurationModel table readFile notes beats clips =
      (allEndTimes table readFile notes beats clips).foldl max 0 + 2 := by
  unfold totalDurationModel allEndTimes notesMaxEnd resolveBeatJobs loadAudioClips
  simp only [foldl_accMax_map, resolveBeatJobs_eq, loadAudioClips_eq, List.foldl_append]

/-- Claim C1 (amended): the total rendered sample count equals the
maximum over all note end times and all resolvable beat/clip end times
TOGETHER WITH `0` (the running maximum starts at `0.0`, so negative end
times never lower it), plus the 2.0-second tail, converted at the
target sample rate and clamped to at least one sample; and it does not
depend on the order in which the notes, beat events or clips are
listed. -/
theorem C1_total_samples_amended (table : String → String → Option BeatSample)
    (readFile : String → Option ClipData) (notes : List MidiNoteEvent)
    (beats : List BeatRenderEvent) (clips : List AudioClipRenderEvent)
    (sampleRate : ℚ) (notes' : List MidiNoteEvent) (beats' : List BeatRenderEvent)
    (clips' : List AudioClipRenderEvent) (hn : notes.Perm notes')
    (hb : beats.Perm beats') (hc : clips.Perm clips') :
    totalSamplesModel table readFile notes beats clips sampleRate =
      jmaxInt 1 (cppTrunc
        (((allEndTimes table readFile notes beats clips).foldl max 0 + 2) * sampleRate)) ∧
    totalSamplesModel table readFile notes beats clips sampleRate =
      totalSamplesModel table readFile notes' beats' clips' sampleRate := by
  constructor
  · unfold totalSamplesModel
    rw [totalDurationModel_eq]
  · unfold totalSamplesModel
    rw [totalDurationModel_eq, totalDurationModel_eq]
    have hperm : (allEndTimes table readFile notes beats clips).Perm
        (allEndTimes table readFile notes' beats' clips') := by
      unfold allEndTimes
      exact ((hn.map noteEndTime).append
        ((hb.filterMap (resolveBeatEvent table)).map beatJobEnd)).append
        ((hc.filterMap (loadClipEvent readFile)).map clipEndTime)
    rw [foldl_max_perm hperm]

/-- Witness for C1 (amended) at a concrete reordered note list. -/
theorem C1_total_samples_amended_witness :
    ([⟨"a", 0, 1, 60, 1, 1⟩, ⟨"b", 2, 1, 62, 1, 1⟩] :
        List MidiNoteEvent).Perm [⟨"b", 2, 1, 62, 1, 1⟩, ⟨"a", 0, 1, 60, 1, 1⟩] ∧
    (totalSamplesModel (fun _ _ => none) (fun _ => none)
        [⟨"a", 0, 1, 60, 1, 1⟩, ⟨"b", 2, 1, 62, 1, 1⟩] [] [] 100 =
      jmaxInt 1 (cppTrunc
        (((allEndTimes (fun _ _ => none) (fun _ => none)
            [⟨"a", 0, 1, 60, 1, 1⟩, ⟨"b", 2, 1, 62, 1, 1⟩] [] []).foldl max 0 + 2) * 100)) ∧
    totalSamplesModel (fun _ _ => none) (fun _ => none)
        [⟨"a", 0, 1, 60, 1, 1⟩, ⟨"b", 2, 1, 62, 1, 1⟩] [] [] 100 =
      totalSamplesModel (fun _ _ => none) (fun _ => none)
        [⟨"b", 2, 1, 62, 1, 1⟩, ⟨"a", 0, 1, 60, 1, 1⟩] [] [] 100) :=
  ⟨by decide, C1_total_samples_amended (fun _ _ => none) (fun _ => none) _ _ _ 100 _ _ _
    (by decide) (List.Perm.refl []) (List.Perm.refl [])⟩

/-- Claim C1 as stated fails on a note with a negative duration (the
spec explicitly accepts negative durations): one note with
`startTimeSeconds = 0`, `durationSeconds = -4` has end time `-4`, so
the claimed formula gives `max 1 ((-4 + 2) * 44100 < 0) = 1` sample,
while the code keeps `totalDuration = 0` and renders
`(0 + 2) * 44100 = 88200` samples. -/
theorem C1_counterexample :
    totalSamplesModel (fun _ _ => none) (fun _ => none)
        [⟨"t", 0, -4, 60, 1, 1⟩] [] [] 44100 = 88200 ∧
    claimC1TotalSamples (fun _ _ => none) (fun _ => none)
        [⟨"t", 0, -4, 60, 1, 1⟩] [] [] 44100 = 1 := by
  constructor
  · norm_num [totalSamplesModel, totalDurationModel, notesMaxEnd, resolveBeatJobs,
      loadAudioClips, noteEndTime, accMax, cppTrunc, jmaxInt, List.foldl]
  · norm_num [claimC1TotalSamples, allEndTimes, noteEndTime, cppTrunc, jmaxInt, List.foldl,
      Int.ceil_neg, Int.ceil_ofNat]

theorem foldl_append_eq_bind {α β : Type} (f : α → List β) (l : List α) (acc : List β) :
    l.foldl (fun a x => a ++ f x) acc = acc ++ l.flatMap f := by
  induction l generalizing acc with
  | nil => simp
  | cons x xs ih => simp [List.foldl_cons, ih]

theorem buildTimeline_eq_bind (sampleRate : ℚ) (totalSamples : ℤ)
    (notes : List MidiNoteEvent) :
    buildTimeline sampleRate totalSamples notes =
      notes.flatMap (noteTimelineEvents sampleRate totalSamples) := by
  unfold buildTimeline
  rw [foldl_append_eq_bind]
  rfl

theorem buildTimeline_length (sampleRate : ℚ) (totalSamples : ℤ)
    (notes : List MidiNoteEvent) :
    (buildTimeline sampleRate totalSamples notes).length = 2 * notes.length := by
  rw [buildTimeline_eq_bind]
  induction notes with
  | nil => rfl
  | cons n rest ih =>
    rw [List.flatMap_cons, List.length_append, ih]
    simp only [noteTimelineEvents, List.length_cons, List.length_nil, List.length]
    omega

/-- Claim C3 (amended): for every note set of one track, every legal
result of the code's timeline compilation is a permutation, sorted
nondecreasing by sample position, of the pre-sort timeline in which
each note contributes exactly one NoteOn followed by one NoteOff (so
the sorted list has `2 * notes.length` entries and contains each note's
NoteOn and NoteOff); but `std::sort` is not stable, so the relative
order of entries at equal sample positions — in particular the NoteOn
and NoteOff of a zero-duration note — is NOT specified. -/
theorem C3_timeline_amended (sampleRate : ℚ) (totalSamples : ℤ)
    (notes : List MidiNoteEvent) (out : List SF2Event)
    (h : isStdSortResult out (buildTimeline sampleRate totalSamples notes)) :
    out.Sorted (fun a b => a.samplePos ≤ b.samplePos) ∧
    (buildTimeline sampleRate totalSamples notes).Perm out ∧
    out.length = 2 * notes.length ∧
    buildTimeline sampleRate totalSamples notes =
      notes.flatMap (noteTimelineEvents sampleRate totalSamples) ∧
    (∀ n : MidiNoteEvent,
      (noteTimelineEvents sampleRate totalSamples n).map SF2Event.noteOn = [true, false]) ∧
    (∀ n ∈ notes, ∀ e ∈ noteTimelineEvents sampleRate totalSamples n, e ∈ out) := by
  obtain ⟨hperm, hsorted⟩ := h
  refine ⟨hsorted, hperm, ?_, buildTimeline_eq_bind _ _ _, fun n => rfl, ?_⟩
  · rw [← hperm.length_eq, buildTimeline_length]
  · intro n hn e he
    apply hperm.mem_iff.mp
    rw [buildTimeline_eq_bind]
    exact List.mem_flatMap.mpr ⟨n, hn, he⟩

/-- Witness for C3 (amended) at one concrete note and the identity
permutation of its two-entry timeline. -/
theorem C3_timeline_amended_witness :
    isStdSortResult [⟨0, true, 60, 1, 1⟩, ⟨50, false, 60, 1, 1⟩]
      (buildTimeline 100 200 [⟨"t", 0, 1/2, 60, 1, 1⟩]) ∧
    ([(⟨0, true, 60, 1, 1⟩ : SF2Event), ⟨50, false, 60, 1, 1⟩].Sorted
        (fun a b => a.samplePos ≤ b.samplePos) ∧
      (buildTimeline 100 200 [⟨"t", 0, 1/2, 60, 1, 1⟩]).Perm
        [⟨0, true, 60, 1, 1⟩, ⟨50, false, 60, 1, 1⟩] ∧
      ([(⟨0, true, 60, 1, 1⟩ : SF2Event), ⟨50, false, 60, 1, 1⟩]).length =
        2 * ([(⟨"t", 0, 1/2, 60, 1, 1⟩ : MidiNoteEvent)]).length ∧
      buildTimeline 100 200 [⟨"t", 0, 1/2, 60, 1, 1⟩] =
        ([⟨"t", 0, 1/2, 60, 1, 1⟩] : List MidiNoteEvent).flatMap (noteTimelineEvents 100 200) ∧
      (∀ n : MidiNoteEvent,
        (noteTimelineEvents 100 200 n).map SF2Event.noteOn = [true, false]) ∧
      (∀ n ∈ ([⟨"t", 0, 1/2, 60, 1, 1⟩] : List MidiNoteEvent),
        ∀ e ∈ noteTimelineEvents 100 200 n,
          e ∈ [(⟨0, true, 60, 1, 1⟩ : SF2Event), ⟨50, false, 60, 1, 1⟩])) := by
  have hb : buildTimeline 100 200 [⟨"t", 0, 1/2, 60, 1, 1⟩] =
      [⟨0, true, 60, 1, 1⟩, ⟨50, false, 60, 1, 1⟩] := by
    norm_num [buildTimeline, noteTimelineEvents, jlimitInt, jlimitQ, cppTrunc, List.foldl]
  have hs : isStdSortResult [⟨0, true, 60, 1, 1⟩, ⟨50, false, 60, 1, 1⟩]
      (buildTimeline 100 200 [⟨"t", 0, 1/2, 60, 1, 1⟩]) := by
    rw [isStdSortResult, hb]
    exact ⟨List.Perm.refl _, by simp [List.Sorted]⟩
  exact ⟨hs, C3_timeline_amended 100 200 _ _ hs⟩

/-- Claim C3 as stated fails: for a zero-duration note both timeline
entries sit at the same sample position, and the list with the NoteOff
FIRST is also a legal `std::sort` result (`std::sort` is not stable),
so the sorted timeline is not guaranteed to keep the NoteOn of a
zero-duration note before its NoteOff. -/
theorem C3_counterexample :
    buildTimeline 100 200 [⟨"t", 0, 0, 60, 1, 1⟩] =
      [⟨0, true, 60, 1, 1⟩, ⟨0, false, 60, 1, 1⟩] ∧
    isStdSortResult [⟨0, false, 60, 1, 1⟩, ⟨0, true, 60, 1, 1⟩]
      (buildTimeline 100 200 [⟨"t", 0, 0, 60, 1, 1⟩]) ∧
    ([(⟨0, false, 60, 1, 1⟩ : SF2Event), ⟨0, true, 60, 1, 1⟩].map SF2Event.noteOn =
      [false, true]) := by
  have hb : buildTimeline 100 200 [⟨"t", 0, 0, 60, 1, 1⟩] =
      [⟨0, true, 60, 1, 1⟩, ⟨0, false, 60, 1, 1⟩] := by
    norm_num [buildTimeline, noteTimelineEvents, jlimitInt, jlimitQ, cppTrunc, List.foldl]
  refine ⟨hb, ?_, rfl⟩
  rw [isStdSortResult, hb]
  exact ⟨List.Perm.swap _ _ _, by simp [List.Sorted]⟩

theorem cppTrunc_intCast (n : ℤ) : cppTrunc (n : ℚ) = n := by
  unfold cppTrunc
  split <;> simp

theorem jlimitInt_mem (lo hi v : ℤ) (h : lo ≤ hi) :
    lo ≤ jlimitInt lo hi v ∧ jlimitInt lo hi v ≤ hi := by
  unfold jlimitInt
  split_ifs <;> omega

theorem interpolatedSample_intCast (sample : BeatSample) (n : ℤ) (ch : ℕ) :
    interpolatedSample sample (n : ℚ) ch =
      sample.data (srcChannelFor sample.numChannels ch) n.toNat := by
  unfold interpolatedSample
  rw [cppTrunc_intCast]
  simp

/-- The mixing loop only ever ADDS into the destination: its result at
any position is the prior buffer content plus `gain` times a
contribution that does not depend on the buffer. -/
theorem mixJobFrom_eq_add (sample : BeatSample) (gain ratio : ℚ) (startSample : ℤ) :
    ∀ (fuel : ℕ) (dest : ℤ) (buf : Buffer) (ch : ℕ) (i : ℤ),
      mixJobFrom sample gain ratio startSample buf dest fuel ch i =
        buf ch i + gain * jobContrib sample ratio startSample dest fuel ch i := by
  intro fuel
  induction fuel with
  | zero =>
    intro dest buf ch i
    simp [mixJobFrom, jobContrib]
  | succ fuel ih =>
    intro dest buf ch i
    simp only [mixJobFrom, jobContrib]
    split
    · ring
    · rw [ih]
      have hbuf2 : addSample (addSample buf 0 dest
            (interpolatedSample sample (((dest - startSample : ℤ) : ℚ) * ratio) 0 * gain))
            1 dest (interpolatedSample sample (((dest - startSample : ℤ) : ℚ) * ratio) 1 * gain)
            ch i =
          buf ch i + gain * (if (ch = 0 ∨ ch = 1) ∧ i = dest then
            interpolatedSample sample (((dest - startSample : ℤ) : ℚ) * ratio) ch else 0) := by
        unfold addSample
        by_cases h0 : ch = 0
        · by_cases hi : i = dest <;> simp [h0, hi] <;> ring
        · by_cases h1 : ch = 1
          · by_cases hi : i = dest <;> simp [h0, h1, hi] <;> ring
          · simp [h0, h1]
      rw [hbuf2]
      ring

/-- At resample ratio 1 the job loop's gain-free contribution at `(ch, i)`
is exactly the source sample `i - startSample`, for the in-range
positions, and `0` elsewhere. -/
theorem jobContrib_ratio_one (sample : BeatSample) (startSample : ℤ) :
    ∀ (fuel : ℕ) (dest : ℤ), startSample ≤ dest → ∀ (ch : ℕ) (i : ℤ),
      jobContrib sample 1 startSample dest fuel ch i =
        if (ch = 0 ∨ ch = 1) ∧ dest ≤ i ∧ i < dest + fuel ∧
            i - startSample < (sample.numSamples : ℤ)
        then sample.data (srcChannelFor sample.numChannels ch) (i - startSample).toNat
        else 0 := by
  intro fuel
  induction fuel with
  | zero =>
    intro dest _ ch i
    simp only [jobContrib]
    split
    · rename_i hc
      exfalso
      rcases hc with ⟨-, h1, h2, -⟩
      omega
    · rfl
  | succ fuel ih =>
    intro dest hd ch i
    have hsrc : ((dest - startSample : ℤ) : ℚ) * 1 = ((dest - startSample : ℤ) : ℚ) :=
      mul_one _
    simp only [jobContrib, hsrc, cppTrunc_intCast]
    split
    · rename_i hbreak
      split
      · rename_i hc
        exfalso
        rcases hc with ⟨-, h1, -, h3⟩
        omega
      · rfl
    · rename_i hgo
      rw [ih (dest + 1) (by omega), interpolatedSample_intCast]
      by_cases hch : ch = 0 ∨ ch = 1
      · by_cases hi : i = dest
        · have hc1 : (ch = 0 ∨ ch = 1) ∧ i = dest := ⟨hch, hi⟩
          have hc2 : ¬((ch = 0 ∨ ch = 1) ∧ dest + 1 ≤ i ∧ i < dest + 1 + (fuel : ℤ) ∧
              i - startSample < (sample.numSamples : ℤ)) := by
            rintro ⟨-, h1, -, -⟩
            omega
          have hc3 : (ch = 0 ∨ ch = 1) ∧ dest ≤ i ∧ i < dest + ((fuel + 1 : ℕ) : ℤ) ∧
              i - startSample < (sample.numSamples : ℤ) :=
            ⟨hch, by omega, by omega, by omega⟩
          rw [if_pos hc1, if_neg hc2, if_pos hc3, hi]
          simp
        · have hc1 : ¬((ch = 0 ∨ ch = 1) ∧ i = dest) := by
            rintro ⟨-, h⟩
            exact hi h
          rw [if_neg hc1, zero_add]
          by_cases hrange : dest + 1 ≤ i ∧ i < dest + 1 + (fuel : ℤ) ∧
              i - startSample < (sample.numSamples : ℤ)
          · have hc2 : (ch = 0 ∨ ch = 1) ∧ dest + 1 ≤ i ∧ i < dest + 1 + (fuel : ℤ) ∧
                i - startSample < (sample.numSamples : ℤ) := ⟨hch, hrange⟩
            have hc3 : (ch = 0 ∨ ch = 1) ∧ dest ≤ i ∧ i < dest + ((fuel + 1 : ℕ) : ℤ) ∧
                i - startSample < (sample.numSamples : ℤ) :=
              ⟨hch, by omega, by omega, by omega⟩
            rw [if_pos hc2, if_pos hc3]
          · have hc2 : ¬((ch = 0 ∨ ch = 1) ∧ dest + 1 ≤ i ∧ i < dest + 1 + (fuel : ℤ) ∧
                i - startSample < (sample.numSamples : ℤ)) := by
              rintro ⟨-, h⟩
              exact hrange h
            have hc3 : ¬((ch = 0 ∨ ch = 1) ∧ dest ≤ i ∧ i < dest + ((fuel + 1 : ℕ) : ℤ) ∧
                i - startSample < (sample.numSamples : ℤ)) := by
              rintro ⟨-, h1, h2, h3⟩
              refine hrange ⟨?_, by omega, h3⟩
              rcases eq_or_lt_of_le h1 with h | h
              · exact absurd h.symm hi
              · omega
            rw [if_neg hc2, if_neg hc3]
      · have hc1 : ¬((ch = 0 ∨ ch = 1) ∧ i = dest) := by
          rintro ⟨h, -⟩
          exact hch h
        have hc2 : ¬((ch = 0 ∨ ch = 1) ∧ dest + 1 ≤ i ∧ i < dest + 1 + (fuel : ℤ) ∧
            i - startSample < (sample.numSamples : ℤ)) := by
          rintro ⟨h, -⟩
          exact hch h
        have hc3 : ¬((ch = 0 ∨ ch = 1) ∧ dest ≤ i ∧ i < dest + ((fuel + 1 : ℕ) : ℤ) ∧
            i - startSample < (sample.numSamples : ℤ)) := by
          rintro ⟨h, -⟩
          exact hch h
        rw [if_neg hc1, if_neg hc2, if_neg hc3, zero_add]

/-- At resample ratio 1, gain 1 and an integer starting position, the
live voice loop adds exactly the source sample values at
integer-aligned output positions (and touches nothing else). -/
theorem voiceLoop_ratio_one (sample : BeatSample) :
    ∀ (fuel : ℕ) (p : ℤ), 0 ≤ p → ∀ (start : ℤ) (buf : Buffer) (ch : ℕ) (j : ℤ),
      (voiceLoop sample 1 1 buf (p : ℚ) start fuel).1 ch j =
        buf ch j + (if (ch = 0 ∨ ch = 1) ∧ start ≤ j ∧ j < start + fuel ∧
            p + j - start < (sample.numSamples : ℤ)
          then sample.data (srcChannelFor sample.numChannels ch) (p + j - start).toNat
          else 0) := by
  intro fuel
  induction fuel with
  | zero =>
    intro p hp start buf ch j
    simp only [voiceLoop]
    split
    · rename_i hcond
      exfalso
      rcases hcond with ⟨-, h1, h2, -⟩
      omega
    · simp
  | succ fuel ih =>
    intro p hp start buf ch j
    simp only [voiceLoop, cppTrunc_intCast]
    split
    · rename_i hbreak
      split
      · rename_i hcond
        exfalso
        rcases hcond with ⟨-, h1, -, h3⟩
        omega
      · simp
    · rename_i hgo
      have hcast : (p : ℚ) + 1 = ((p + 1 : ℤ) : ℚ) := by
        push_cast
        ring
      rw [hcast, ih (p + 1) (by omega)]
      have harg : p + 1 + j - (start + 1) = p + j - start := by ring
      rw [harg]
      have hbuf2 : addSample (addSample buf 0 start
            (interpolatedSample sample ((p : ℤ) : ℚ) 0 * 1))
            1 start (interpolatedSample sample ((p : ℤ) : ℚ) 1 * 1) ch j =
          buf ch j + (if (ch = 0 ∨ ch = 1) ∧ j = start then
            sample.data (srcChannelFor sample.numChannels ch) p.toNat else 0) := by
        rw [interpolatedSample_intCast, interpolatedSample_intCast]
        unfold addSample
        by_cases h0 : ch = 0
        · by_cases hj : j = start <;> simp [h0, hj] <;> ring
        · by_cases h1 : ch = 1
          · by_cases hj : j = start <;> simp [h0, h1, hj] <;> ring
          · simp [h0, h1]
      rw [hbuf2]
      by_cases hch : ch = 0 ∨ ch = 1
      · by_cases hj : j = start
        · have hc1 : (ch = 0 ∨ ch = 1) ∧ j = start := ⟨hch, hj⟩
          have hc2 : ¬((ch = 0 ∨ ch = 1) ∧ start + 1 ≤ j ∧ j < start + 1 + (fuel : ℤ) ∧
              p + j - start < (sample.numSamples : ℤ)) := by
            rintro ⟨-, h1, -, -⟩
            omega
          have hc3 : (ch = 0 ∨ ch = 1) ∧ start ≤ j ∧ j < start + ((fuel + 1 : ℕ) : ℤ) ∧
              p + j - start < (sample.numSamples : ℤ) :=
            ⟨hch, by omega, by omega, by omega⟩
          rw [if_pos hc1, if_neg hc2, if_pos hc3, hj]
          have hps : p + start - start = p := by ring
          rw [hps]
          ring
        · have hc1 : ¬((ch = 0 ∨ ch = 1) ∧ j = start) := by
            rintro ⟨-, h⟩
            exact hj h
          rw [if_neg hc1, add_zero]
          by_cases hrange : start + 1 ≤ j ∧ j < start + 1 + (fuel : ℤ) ∧
              p + j - start < (sample.numSamples : ℤ)
          · have hc2 : (ch = 0 ∨ ch = 1) ∧ start + 1 ≤ j ∧ j < start + 1 + (fuel : ℤ) ∧
                p + j - start < (sample.numSamples : ℤ) := ⟨hch, hrange⟩
            have hc3 : (ch = 0 ∨ ch = 1) ∧ start ≤ j ∧ j < start + ((fuel + 1 : ℕ) : ℤ) ∧
                p + j - start < (sample.numSamples : ℤ) :=
              ⟨hch, by omega, by omega, by omega⟩
            rw [if_pos hc2, if_pos hc3]
          · have hc2 : ¬((ch = 0 ∨ ch = 1) ∧ start + 1 ≤ j ∧ j < start + 1 + (fuel : ℤ) ∧
                p + j - start < (sample.numSamples : ℤ)) := by
              rintro ⟨-, h⟩
              exact hrange h
            have hc3 : ¬((ch = 0 ∨ ch = 1) ∧ start ≤ j ∧ j < start + ((fuel + 1 : ℕ) : ℤ) ∧
                p + j - start < (sample.numSamples : ℤ)) := by
              rintro ⟨-, h1, h2, h3⟩
              refine hrange ⟨?_, by omega, h3⟩
              rcases eq_or_lt_of_le h1 with h | h
              · exact absurd h.symm hj
              · omega
            rw [if_neg hc2, if_neg hc3]
      · have hc1 : ¬((ch = 0 ∨ ch = 1) ∧ j = start) := by
          rintro ⟨h, -⟩
          exact hch h
        have hc2 : ¬((ch = 0 ∨ ch = 1) ∧ start + 1 ≤ j ∧ j < start + 1 + (fuel : ℤ) ∧
            p + j - start < (sample.numSamples : ℤ)) := by
          rintro ⟨h, -⟩
          exact hch h
        have hc3 : ¬((ch = 0 ∨ ch = 1) ∧ start ≤ j ∧ j < start + ((fuel + 1 : ℕ) : ℤ) ∧
            p + j - start < (sample.numSamples : ℤ)) := by
          rintro ⟨h, -⟩
          exact hch h
        rw [if_neg hc1, if_neg hc2, if_neg hc3, add_zero]

/-- Claim C4: for every voice whose sample's source rate equals the
destination rate and whose gain equals 1, the resample ratio is 1, the
linear interpolation at the resulting integer source positions
collapses to `s0`, and both mixing loops — the offline beat-job loop
and the live voice loop — add exactly the source sample values into
the destination at integer-aligned positions (and touch nothing
else). -/
theorem C4_unity_resample (rate : ℚ) (T : ℤ) (job : BeatJob) (buf : Buffer)
    (hrate : rate ≠ 0) (hsr : job.sample.sampleRate = rate) (hg : job.gain = 1)
    (hT : 1 ≤ T) :
    job.sample.sampleRate / rate = 1 ∧
    (∀ (n : ℤ) (ch : ℕ), interpolatedSample job.sample (n : ℚ) ch =
      job.sample.data (srcChannelFor job.sample.numChannels ch) n.toNat) ∧
    (∀ (ch : ℕ) (i : ℤ),
      mixBeatJob rate T buf job ch i =
        buf ch i +
          (if (ch = 0 ∨ ch = 1) ∧
              jlimitInt 0 (T - 1) ⌊job.startTimeSeconds * rate⌋ ≤ i ∧ i < T ∧
              i - jlimitInt 0 (T - 1) ⌊job.startTimeSeconds * rate⌋ <
                (job.sample.numSamples : ℤ)
            then job.sample.data (srcChannelFor job.sample.numChannels ch)
              (i - jlimitInt 0 (T - 1) ⌊job.startTimeSeconds * rate⌋).toNat
            else 0)) ∧
    (∀ (p : ℤ), 0 ≤ p → ∀ (start : ℤ) (fuel : ℕ) (vbuf : Buffer) (ch : ℕ) (j : ℤ),
      (voiceLoop job.sample job.gain (job.sample.sampleRate / rate) vbuf (p : ℚ)
          start fuel).1 ch j =
        vbuf ch j + (if (ch = 0 ∨ ch = 1) ∧ start ≤ j ∧ j < start + fuel ∧
            p + j - start < (job.sample.numSamples : ℤ)
          then job.sample.data (srcChannelFor job.sample.numChannels ch)
            (p + j - start).toNat
          else 0)) := by
  have hdiv : job.sample.sampleRate / rate = 1 := by
    rw [hsr]
    exact div_self hrate
  refine ⟨hdiv, fun n ch => interpolatedSample_intCast _ _ _, ?_, ?_⟩
  case refine_2 =>
    intro p hp start fuel vbuf ch j
    rw [hdiv, hg]
    exact voiceLoop_ratio_one job.sample fuel p hp start vbuf ch j
  intro ch i
  simp only [mixBeatJob, hdiv, hg]
  set start := jlimitInt 0 (T - 1) ⌊job.startTimeSeconds * rate⌋ with hstartDef
  have hmem := jlimitInt_mem 0 (T - 1) ⌊job.startTimeSeconds * rate⌋ (by omega)
  rw [← hstartDef] at hmem
  rw [mixJobFrom_eq_add, jobContrib_ratio_one _ _ _ _ le_rfl, one_mul]
  have hrange : start + (((T - start).toNat : ℕ) : ℤ) = T := by
    rw [Int.toNat_of_nonneg (by omega)]
    omega
  rw [hrange]

/-- Witness for C4 at a concrete 2-frame sample, rate 5 and a 3-frame
destination. -/
theorem C4_unity_resample_witness :
    (5 : ℚ) ≠ 0 ∧
    (⟨⟨5, 1, 2, fun _ _ => 3⟩, 0, 1⟩ : BeatJob).sample.sampleRate = 5 ∧
    (⟨⟨5, 1, 2, fun _ _ => 3⟩, 0, 1⟩ : BeatJob).gain = 1 ∧ (1 : ℤ) ≤ 3 ∧
    mixBeatJob 5 3 (fun _ _ => 0) (⟨⟨5, 1, 2, fun _ _ => 3⟩, 0, 1⟩ : BeatJob) 0 1 =
      (fun (_ : ℕ) (_ : ℤ) => (0 : ℚ)) 0 1 +
        (if ((0 : ℕ) = 0 ∨ (0 : ℕ) = 1) ∧
            jlimitInt 0 (3 - 1)
              ⌊(⟨⟨5, 1, 2, fun _ _ => 3⟩, 0, 1⟩ : BeatJob).startTimeSeconds * 5⌋ ≤ 1 ∧
            (1 : ℤ) < 3 ∧
            1 - jlimitInt 0 (3 - 1)
              ⌊(⟨⟨5, 1, 2, fun _ _ => 3⟩, 0, 1⟩ : BeatJob).startTimeSeconds * 5⌋ <
              ((⟨⟨5, 1, 2, fun _ _ => 3⟩, 0, 1⟩ : BeatJob).sample.numSamples : ℤ)
          then (⟨⟨5, 1, 2, fun _ _ => 3⟩, 0, 1⟩ : BeatJob).sample.data
            (srcChannelFor (⟨⟨5, 1, 2, fun _ _ => 3⟩, 0, 1⟩ : BeatJob).sample.numChannels 0)
            ((1 : ℤ) - jlimitInt 0 (3 - 1)
              ⌊(⟨⟨5, 1, 2, fun _ _ => 3⟩, 0, 1⟩ : BeatJob).startTimeSeconds * 5⌋).toNat
          else 0) :=
  ⟨by norm_num, rfl, rfl, by norm_num,
    (C4_unity_resample 5 3 ⟨⟨5, 1, 2, fun _ _ => 3⟩, 0, 1⟩ (fun _ _ => 0)
      (by norm_num) rfl rfl (by norm_num)).2.2.1 0 1⟩

/-- Pointwise form of one offline beat-job mix: the destination plus the
job's stored gain times a buffer-independent contribution. -/
theorem mixBeatJob_apply (rate : ℚ) (T : ℤ) (buf : Buffer) (job : BeatJob)
    (ch : ℕ) (i : ℤ) :
    mixBeatJob rate T buf job ch i =
      buf ch i + job.gain *
        jobContrib job.sample (job.sample.sampleRate / rate)
          (jlimitInt 0 (T - 1) ⌊job.startTimeSeconds * rate⌋)
          (jlimitInt 0 (T - 1) ⌊job.startTimeSeconds * rate⌋)
          (T - jlimitInt 0 (T - 1) ⌊job.startTimeSeconds * rate⌋).toNat ch i := by
  simp only [mixBeatJob]
  exact mixJobFrom_eq_add _ _ _ _ _ _ _ _ _

/-- Claim C6 (amended): a LIVE voice created by `triggerBeat` carries
the requested gain clamped into [0,4] at creation time; an OFFLINE
beat render job carries the requested gain UNCLAMPED; in both cases the
stored gain is applied as one per-voice factor during mixing, never
re-clamped per sample. -/
theorem C6_gain_clamp_amended :
    (∀ (table : String → String → Option BeatSample) (voices : List BeatVoice)
      (trackId rowId : String) (g : ℚ) (s : BeatSample),
      table trackId rowId = some s → s.numSamples ≠ 0 →
      triggerBeat table voices trackId rowId g = voices ++ [⟨s, 0, jlimitQ 0 4 g⟩]) ∧
    (∀ (table : String → String → Option BeatSample) (ev : BeatRenderEvent)
      (s : BeatSample),
      table ev.trackId ev.rowId = some s → s.numSamples ≠ 0 →
      resolveBeatEvent table ev = some ⟨s, ev.startTimeSeconds, ev.gainLinear⟩) ∧
    (∀ (rate : ℚ) (T : ℤ) (buf : Buffer) (job : BeatJob) (ch : ℕ) (i : ℤ),
      mixBeatJob rate T buf job ch i =
        buf ch i + job.gain *
          jobContrib job.sample (job.sample.sampleRate / rate)
            (jlimitInt 0 (T - 1) ⌊job.startTimeSeconds * rate⌋)
            (jlimitInt 0 (T - 1) ⌊job.startTimeSeconds * rate⌋)
            (T - jlimitInt 0 (T - 1) ⌊job.startTimeSeconds * rate⌋).toNat ch i) := by
  refine ⟨?_, ?_, fun rate T buf job ch i => mixBeatJob_apply rate T buf job ch i⟩
  · intro table voices trackId rowId g s hs hne
    unfold triggerBeat
    rw [hs]
    simp [hne]
  · intro table ev s hs hne
    unfold resolveBeatEvent
    rw [hs]
    simp [hne]

/-- Witness for C6 (amended) at a concrete one-row table and gain 5. -/
theorem C6_gain_clamp_amended_witness :
    (fun (t r : String) =>
        if t = "t" ∧ r = "r" then some (⟨44100, 1, 4, fun _ _ => 1⟩ : BeatSample)
        else none) "t" "r" = some (⟨44100, 1, 4, fun _ _ => 1⟩ : BeatSample) ∧
    (⟨44100, 1, 4, fun _ _ => 1⟩ : BeatSample).numSamples ≠ 0 ∧
    triggerBeat (fun t r =>
        if t = "t" ∧ r = "r" then some (⟨44100, 1, 4, fun _ _ => 1⟩ : BeatSample)
        else none) [] "t" "r" 5 =
      [] ++ [⟨⟨44100, 1, 4, fun _ _ => 1⟩, 0, jlimitQ 0 4 5⟩] := by
  refine ⟨by simp, by norm_num, ?_⟩
  exact C6_gain_clamp_amended.1 _ [] "t" "r" 5 _ (by simp) (by norm_num)

/-- Claim C6 as stated fails for the offline path: a beat render job
requesting gain 5 is resolved with gain 5, not `jlimit (0, 4, 5) = 4`
(the clamp of line 573 exists only in `triggerBeat`; the preload loop
of lines 1017-1034 copies `ev.gainLinear` verbatim), while the live
trigger with the same request is clamped to 4. -/
theorem C6_counterexample :
    ((resolveBeatJobs (fun t r =>
        if t = "t" ∧ r = "r" then some (⟨44100, 1, 4, fun _ _ => 1⟩ : BeatSample)
        else none) [⟨"t", "r", 0, 5⟩] 0).2.map BeatJob.gain = [5]) ∧
    ((triggerBeat (fun t r =>
        if t = "t" ∧ r = "r" then some (⟨44100, 1, 4, fun _ _ => 1⟩ : BeatSample)
        else none) [] "t" "r" 5).map BeatVoice.gain = [4]) ∧
    jlimitQ 0 4 (5 : ℚ) = 4 ∧ (5 : ℚ) ≠ 4 := by
  refine ⟨?_, ?_, ?_, by norm_num⟩
  · simp [resolveBeatJobs, resolveBeatStep, List.foldl]
  · norm_num [triggerBeat, jlimitQ]
  · norm_num [jlimitQ]

theorem foldl_perm_of_right_comm {α β : Type _} (f : β → α → β)
    (hf : ∀ b a a', f (f b a) a' = f (f b a') a) {l₁ l₂ : List α} (p : l₁.Perm l₂) :
    ∀ b, l₁.foldl f b = l₂.foldl f b := by
  induction p with
  | nil => intro b; rfl
  | cons x _ ih =>
    intro b
    simp only [List.foldl_cons]
    exact ih _
  | swap x y l =>
    intro b
    simp only [List.foldl_cons]
    rw [hf]
  | trans _ _ ih₁ ih₂ =>
    intro b
    exact (ih₁ b).trans (ih₂ b)

theorem addTrackBuffer_right_comm (T : ℤ) (m a b : Buffer) :
    addTrackBuffer T (addTrackBuffer T m a) b = addTrackBuffer T (addTrackBuffer T m b) a := by
  funext ch i
  unfold addTrackBuffer
  split_ifs <;> ring

theorem mixBeatJob_right_comm (rate : ℚ) (T : ℤ) (b : Buffer) (j j' : BeatJob) :
    mixBeatJob rate T (mixBeatJob rate T b j) j' =
      mixBeatJob rate T (mixBeatJob rate T b j') j := by
  funext ch i
  rw [mixBeatJob_apply, mixBeatJob_apply, mixBeatJob_apply, mixBeatJob_apply]
  ring

theorem mixTrackBuffers_apply (T : ℤ) (tbs : List Buffer) (master : Buffer)
    (ch : ℕ) (i : ℤ) (hch : ch = 0 ∨ ch = 1) (h0 : 0 ≤ i) (hi : i < T) :
    mixTrackBuffers T tbs master ch i =
      master ch i + (tbs.map (fun tb => tb ch i)).sum := by
  induction tbs generalizing master with
  | nil => simp [mixTrackBuffers]
  | cons tb rest ih =>
    simp only [mixTrackBuffers, List.foldl_cons] at ih ⊢
    rw [ih]
    unfold addTrackBuffer
    rw [if_pos ⟨hch, h0, hi⟩]
    simp [List.sum_cons]
    ring

theorem mixBeatJobs_apply (rate : ℚ) (T : ℤ) (jobs : List BeatJob) (buf : Buffer)
    (ch : ℕ) (i : ℤ) :
    mixBeatJobs rate T jobs buf ch i =
      buf ch i + (jobs.map (fun j => j.gain *
        jobContrib j.sample (j.sample.sampleRate / rate)
          (jlimitInt 0 (T - 1) ⌊j.startTimeSeconds * rate⌋)
          (jlimitInt 0 (T - 1) ⌊j.startTimeSeconds * rate⌋)
          (T - jlimitInt 0 (T - 1) ⌊j.startTimeSeconds * rate⌋).toNat ch i)).sum := by
  induction jobs generalizing buf with
  | nil => simp [mixBeatJobs]
  | cons j rest ih =>
    simp only [mixBeatJobs, List.foldl_cons] at ih ⊢
    rw [ih, mixBeatJob_apply]
    simp [List.sum_cons]
    ring

/-- Claim C9: mixing per-track buffers and one-shot jobs into the master
buffer is commutative addition: permuting the track buffers or the jobs
yields the same master buffer, and every contribution is ADDED to the
prior content of the destination (each destination sample equals its
previous value plus the sum of all contributions), never overwritten. -/
theorem C9_mix_commutative (rate : ℚ) (T : ℤ) (master buf : Buffer)
    (tbs tbs' : List Buffer) (jobs jobs' : List BeatJob)
    (hp : tbs.Perm tbs') (hq : jobs.Perm jobs') :
    mixTrackBuffers T tbs master = mixTrackBuffers T tbs' master ∧
    mixBeatJobs rate T jobs buf = mixBeatJobs rate T jobs' buf ∧
    (∀ (ch : ℕ) (i : ℤ), (ch = 0 ∨ ch = 1) → 0 ≤ i → i < T →
      mixTrackBuffers T tbs master ch i =
        master ch i + (tbs.map (fun tb => tb ch i)).sum) ∧
    (∀ (ch : ℕ) (i : ℤ),
      mixBeatJobs rate T jobs buf ch i =
        buf ch i + (jobs.map (fun j => j.gain *
          jobContrib j.sample (j.sample.sampleRate / rate)
            (jlimitInt 0 (T - 1) ⌊j.startTimeSeconds * rate⌋)
            (jlimitInt 0 (T - 1) ⌊j.startTimeSeconds * rate⌋)
            (T - jlimitInt 0 (T - 1) ⌊j.startTimeSeconds * rate⌋).toNat ch i)).sum) := by
  refine ⟨?_, ?_, fun ch i hch h0 hi => mixTrackBuffers_apply T tbs master ch i hch h0 hi,
    fun ch i => mixBeatJobs_apply rate T jobs buf ch i⟩
  · exact foldl_perm_of_right_comm _ (addTrackBuffer_right_comm T) hp master
  · exact foldl_perm_of_right_comm _ (mixBeatJob_right_comm rate T) hq buf

/-- Witness for C9 at two concrete constant track buffers in swapped
order and the empty job list. -/
theorem C9_mix_commutative_witness :
    ([fun _ _ => (1 : ℚ), fun _ _ => 2] :
        List Buffer).Perm [fun _ _ => 2, fun _ _ => 1] ∧
    (([] : List BeatJob)).Perm [] ∧
    mixTrackBuffers 2 [fun _ _ => (1 : ℚ), fun _ _ => 2] (fun _ _ => 0) =
      mixTrackBuffers 2 [fun _ _ => 2, fun _ _ => 1] (fun _ _ => 0) ∧
    mixTrackBuffers 2 [fun _ _ => (1 : ℚ), fun _ _ => 2] (fun _ _ => 0) 0 0 =
      (fun (_ : ℕ) (_ : ℤ) => (0 : ℚ)) 0 0 +
        (([fun _ _ => (1 : ℚ), fun _ _ => 2] : List Buffer).map (fun tb => tb 0 0)).sum := by
  have hp : ([fun _ _ => (1 : ℚ), fun _ _ => 2] :
      List Buffer).Perm [fun _ _ => 2, fun _ _ => 1] :=
    List.Perm.swap _ _ _
  have h := C9_mix_commutative 44100 2 (fun _ _ => 0) (fun _ _ => 0)
    [fun _ _ => (1 : ℚ), fun _ _ => 2] [fun _ _ => 2, fun _ _ => 1] [] []
    hp (List.Perm.refl [])
  exact ⟨hp, List.Perm.refl [], h.1, h.2.2.1 0 0 (Or.inl rfl) le_rfl (by norm_num)⟩

/-- Claim C7: a render request with a bit depth outside {16, 24, 32}, or
with no notes, beat events and clips at all, fails with an error
message before any rendering, mixing or file-system activity: the
outcome is identical whatever the downstream stage would have done, the
returned flag is failure, and the file at the output path is exactly
what it was before the request. -/
theorem C7_upfront_validation (bitDepth : ℤ) (notes : List MidiNoteEvent)
    (beats : List BeatRenderEvent) (clips : List AudioClipRenderEvent)
    (fs : Option FileContent)
    (h : (bitDepth ≠ 16 ∧ bitDepth ≠ 24 ∧ bitDepth ≠ 32) ∨
      (notes = [] ∧ beats = [] ∧ clips = [])) :
    ∀ cont cont',
      renderToWavValidated cont bitDepth notes beats clips fs =
        renderToWavValidated cont' bitDepth notes beats clips fs ∧
      (renderToWavValidated cont bitDepth notes beats clips fs).1 = false ∧
      (renderToWavValidated cont bitDepth notes beats clips fs).2.1 ≠ "" ∧
      (renderToWavValidated cont bitDepth notes beats clips fs).2.2 = fs := by
  intro cont cont'
  unfold renderToWavValidated
  rcases h with h | h
  · simp [h]
  · by_cases hbd : bitDepth ≠ 16 ∧ bitDepth ≠ 24 ∧ bitDepth ≠ 32
    · simp [hbd]
    · simp [hbd, h]

/-- Witness for C7 at the spec's scenario `bitDepth = 17`. -/
theorem C7_upfront_validation_witness :
    ((17 : ℤ) ≠ 16 ∧ (17 : ℤ) ≠ 24 ∧ (17 : ℤ) ≠ 32) ∧
    (renderToWavValidated (fun fs => (true, "", fs)) 17 [] [] [] none =
        renderToWavValidated (fun _ => (false, "other", some .complete)) 17 [] [] [] none ∧
      (renderToWavValidated (fun fs => (true, "", fs)) 17 [] [] [] none).1 = false ∧
      (renderToWavValidated (fun fs => (true, "", fs)) 17 [] [] [] none).2.1 ≠ "" ∧
      (renderToWavValidated (fun fs => (true, "", fs)) 17 [] [] [] none).2.2 = none) :=
  ⟨⟨by norm_num, by norm_num, by norm_num⟩,
    C7_upfront_validation 17 [] [] [] none
      (Or.inl ⟨by norm_num, by norm_num, by norm_num⟩) _ _⟩

/-- Claim C8 (amended): if opening the output stream fails, the render
request fails and NO file remains at the output path (any pre-existing
file was already deleted); if the stream opens but constructing the
WAV writer fails, the request fails but the zero-byte file created
when the stream was opened REMAINS at the output path. -/
theorem C8_write_failure_amended (env : EncoderEnv) (outputPath : String)
    (fs : Option FileContent) :
    (env.openOk = false →
      writeWavPhase env outputPath fs =
        (false, "Failed to create output file: " ++ outputPath, none)) ∧
    (env.openOk = true → env.writerOk = false →
      writeWavPhase env outputPath fs =
        (false, "Failed to create WAV writer", some .created)) := by
  constructor
  · intro h
    unfold writeWavPhase
    simp [h]
  · intro h1 h2
    unfold writeWavPhase
    simp [h1, h2]

/-- Witness for C8 (amended) at a concrete failing open. -/
theorem C8_write_failure_amended_witness :
    (⟨false, true, true⟩ : EncoderEnv).openOk = false ∧
    writeWavPhase ⟨false, true, true⟩ "out.wav" (some .complete) =
      (false, "Failed to create output file: " ++ "out.wav", none) :=
  ⟨rfl, (C8_write_failure_amended ⟨false, true, true⟩ "out.wav" (some .complete)).1 rfl⟩

/-- Claim C8 as stated fails in the encoder-construction case: when the
output stream opens but `createWriterFor` returns null, `renderToWav`
returns failure, yet the zero-byte file `createOutputStream` just
created is left behind at the output path — the code deleted any
pre-existing file (line 1336) and never removes the new one. -/
theorem C8_counterexample :
    writeWavPhase ⟨true, false, true⟩ "out.wav" (some .complete) =
      (false, "Failed to create WAV writer", some .created) ∧
    (some FileContent.created ≠ (none : Option FileContent)) ∧
    (some FileContent.created ≠ some FileContent.complete) := by
  refine ⟨rfl, by simp, by simp⟩

theorem jminInt_eq_min (a b : ℤ) : jminInt a b = min a b := by
  unfold jminInt
  rcases le_or_lt a b with h | h
  · simp [not_lt.mpr h, min_eq_left h]
  · simp [h, min_eq_right h.le]

theorem dispatchFrom_spec (timeline : List SF2Event) (samplePos : ℤ) :
    ∀ (i : ℕ), i ≤ timeline.length →
      i ≤ (dispatchFrom timeline samplePos i).1 ∧
      (dispatchFrom timeline samplePos i).1 ≤ timeline.length ∧
      (∀ (k : ℕ) (hk : k < timeline.length), i ≤ k →
        k < (dispatchFrom timeline samplePos i).1 →
        (timeline.get ⟨k, hk⟩).samplePos ≤ samplePos) ∧
      (∀ hlt : (dispatchFrom timeline samplePos i).1 < timeline.length,
        samplePos < (timeline.get ⟨(dispatchFrom timeline samplePos i).1, hlt⟩).samplePos) ∧
      (dispatchFrom timeline samplePos i).2 =
        ((timeline.drop i).take ((dispatchFrom timeline samplePos i).1 - i)).map
          (fun ev => (ev, samplePos)) := by
  have key : ∀ (m i : ℕ), timeline.length - i ≤ m → i ≤ timeline.length →
      i ≤ (dispatchFrom timeline samplePos i).1 ∧
      (dispatchFrom timeline samplePos i).1 ≤ timeline.length ∧
      (∀ (k : ℕ) (hk : k < timeline.length), i ≤ k →
        k < (dispatchFrom timeline samplePos i).1 →
        (timeline.get ⟨k, hk⟩).samplePos ≤ samplePos) ∧
      (∀ hlt : (dispatchFrom timeline samplePos i).1 < timeline.length,
        samplePos < (timeline.get ⟨(dispatchFrom timeline samplePos i).1, hlt⟩).samplePos) ∧
      (dispatchFrom timeline samplePos i).2 =
        ((timeline.drop i).take ((dispatchFrom timeline samplePos i).1 - i)).map
          (fun ev => (ev, samplePos)) := by
    intro m
    induction m with
    | zero =>
      intro i hm hi
      have hnone : timeline.get? i = none := List.get?_eq_none.mpr (by omega)
      have hres : dispatchFrom timeline samplePos i = (i, []) := by
        rw [dispatchFrom]
        split
        · rfl
        · rename_i ev heq
          rw [hnone] at heq
          cases heq
      rw [hres]
      exact ⟨le_rfl, hi, fun k hk h1 h2 => absurd h2 (by simp; omega),
        fun hlt => absurd hlt (by simp; omega), by simp⟩
    | succ m ih =>
      intro i hm hi
      cases hq : timeline.get? i with
      | none =>
        have hge : timeline.length ≤ i := List.get?_eq_none.mp hq
        have hres : dispatchFrom timeline samplePos i = (i, []) := by
          rw [dispatchFrom]
          split
          · rfl
          · rename_i ev heq
            rw [hq] at heq
            cases heq
        rw [hres]
        exact ⟨le_rfl, hi, fun k hk h1 h2 => absurd h2 (by simp; omega),
          fun hlt => absurd hlt (by simp; omega), by simp⟩
      | some ev =>
        obtain ⟨hil, hget⟩ := List.get?_eq_some.mp hq
        by_cases hle : ev.samplePos ≤ samplePos
        · have hres : dispatchFrom timeline samplePos i =
              ((dispatchFrom timeline samplePos (i + 1)).1,
                (ev, samplePos) :: (dispatchFrom timeline samplePos (i + 1)).2) := by
            rw [dispatchFrom]
            split
            · rename_i heq
              rw [hq] at heq
              cases heq
            · rename_i ev2 heq
              rw [hq] at heq
              cases heq
              rw [if_pos hle]
          obtain ⟨ih1, ih2, ih3, ih4, ih5⟩ := ih (i + 1) (by omega) (by omega)
          rw [hres]
          dsimp only
          refine ⟨by omega, ih2, ?_, ih4, ?_⟩
          · intro k hk h1 h2
            rcases Nat.eq_or_lt_of_le h1 with h1 | h1
            · have hkev : timeline.get ⟨k, hk⟩ = ev := by
                subst h1
                exact hget
              rw [hkev]
              exact hle
            · exact ih3 k hk (by omega) h2
          · have hdrop : timeline.drop i = ev :: timeline.drop (i + 1) := by
              rw [List.drop_eq_getElem_cons hil]
              simp only [List.get_eq_getElem] at hget
              rw [hget]
            have hsub : (dispatchFrom timeline samplePos (i + 1)).1 - i =
                ((dispatchFrom timeline samplePos (i + 1)).1 - (i + 1)) + 1 := by
              omega
            rw [hdrop, hsub, List.take_succ_cons, List.map_cons, ih5]
        · have hres : dispatchFrom timeline samplePos i = (i, []) := by
            rw [dispatchFrom]
            split
            · rfl
            · rename_i ev2 heq
              rw [hq] at heq
              cases heq
              rw [if_neg hle]
          rw [hres]
          dsimp only
          refine ⟨le_rfl, hi, fun k hk h1 h2 => absurd h2 (by omega), ?_, by simp⟩
          intro hlt
          have hiev : timeline.get ⟨i, hlt⟩ = ev := hget
          rw [hiev]
          omega
  intro i hi
  exact key (timeline.length - i) i le_rfl hi

theorem midiIndexAfterBlock_ge (positions : List ℤ) (cur blk : ℤ) (i : ℕ) :
    i ≤ midiIndexAfterBlock positions cur blk i := by
  have key : ∀ (m i : ℕ), positions.length - i ≤ m →
      i ≤ midiIndexAfterBlock positions cur blk i := by
    intro m
    induction m with
    | zero =>
      intro i hm
      rw [midiIndexAfterBlock]
      split
      · exact le_rfl
      · rename_i ev h
        exact absurd ((List.get?_eq_some.mp h).1) (by omega)
    | succ m ih =>
      intro i hm
      rw [midiIndexAfterBlock]
      split
      · exact le_rfl
      · rename_i p h
        have hil := (List.get?_eq_some.mp h).1
        split
        · exact le_trans (by omega) (ih (i + 1) (by omega))
        · split
          · exact le_rfl
          · exact le_trans (by omega) (ih (i + 1) (by omega))
  exact key (positions.length - i) i le_rfl

theorem map_fst_map_pair {α : Type} (l : List α) (c : ℤ) :
    (l.map (fun x => (x, c))).map Prod.fst = l := by
  induction l with
  | nil => rfl
  | cons x xs ih => simp only [List.map_cons, ih]

/-- Every entry of a dispatch trace whose cursor is at most the position
of the first undispatched event records an event dispatched exactly at
its own sample position. -/
theorem dispatchFrom_entries_eq (timeline : List SF2Event) (samplePos : ℤ) (i : ℕ)
    (hi : i ≤ timeline.length)
    (hsorted : List.Sorted (fun a b => a.samplePos ≤ b.samplePos) timeline)
    (hub : ∀ hlt : i < timeline.length, samplePos ≤ (timeline.get ⟨i, hlt⟩).samplePos) :
    ∀ p ∈ (dispatchFrom timeline samplePos i).2,
      p.2 = samplePos ∧ p.1.samplePos = samplePos := by
  obtain ⟨h1, h2, h3, h4, h5⟩ := dispatchFrom_spec timeline samplePos i hi
  intro p hp
  rw [h5] at hp
  obtain ⟨ev, hev, hevp⟩ := List.mem_map.mp hp
  obtain ⟨j, hj, hjev⟩ := List.getElem_of_mem hev
  have hjlen : j < (dispatchFrom timeline samplePos i).1 - i := by
    have := hj
    simp only [List.length_take, List.length_drop] at this
    omega
  have hjtl : i + j < timeline.length := by
    have := hj
    simp only [List.length_take, List.length_drop] at this
    omega
  have hseg : ev = timeline.get ⟨i + j, hjtl⟩ := by
    rw [← hjev, List.get_eq_getElem]
    rw [List.getElem_take, List.getElem_drop]
  have hle : ev.samplePos ≤ samplePos := by
    rw [hseg]
    exact h3 (i + j) hjtl (by omega) (by omega)
  have hilt : i < timeline.length := by omega
  have hge : samplePos ≤ ev.samplePos := by
    rcases Nat.eq_or_lt_of_le (Nat.le_add_right i j) with hij | hij
    · have hj0 : j = 0 := by omega
      subst hj0
      rw [hseg]
      simp only [Nat.add_zero]
      exact hub _
    · have hmono := List.pairwise_iff_get.mp hsorted ⟨i, hilt⟩ ⟨i + j, hjtl⟩ (by exact hij)
      rw [hseg]
      exact le_trans (hub hilt) hmono
  rw [← hevp]
  exact ⟨rfl, le_antisymm hle hge⟩

/-- Main invariant of the event-driven chunk loop: with a sorted,
in-range timeline, the loop drives the cursor exactly to `totalSamples`,
dispatches the whole timeline in order, dispatches every event at a
cursor equal to the event's own sample position, and every chunk it
logs has the claimed `min (blockSize, remaining, untilNextEvent)`
length (in particular at least 1 frame). -/
theorem sf2RenderLoop_spec (timeline : List SF2Event) (T : ℤ)
    (hsorted : List.Sorted (fun a b => a.samplePos ≤ b.samplePos) timeline)
    (hpos : ∀ ev ∈ timeline, 0 ≤ ev.samplePos ∧ ev.samplePos ≤ T - 1) :
    ∀ (m : ℕ) (st : SF2RenderState), (T - st.currentSample).toNat ≤ m →
      st.currentSample ≤ T →
      st.eventIndex ≤ timeline.length →
      (∀ (k : ℕ) (hk : k < timeline.length), st.eventIndex ≤ k →
        st.currentSample < (timeline.get ⟨k, hk⟩).samplePos) →
      st.dispatchLog.map Prod.fst = timeline.take st.eventIndex →
      (∀ p ∈ st.dispatchLog, p.2 = p.1.samplePos) →
      (∀ e ∈ st.chunkLog, 1 ≤ e.2.2 ∧
        e.2.2 = min renderBlockSize (min (T - e.1)
          (nextEventSample timeline e.2.1 T - e.1))) →
      (sf2RenderLoop timeline T st).currentSample = T ∧
      (sf2RenderLoop timeline T st).dispatchLog.map Prod.fst = timeline ∧
      (∀ p ∈ (sf2RenderLoop timeline T st).dispatchLog, p.2 = p.1.samplePos) ∧
      (∀ e ∈ (sf2RenderLoop timeline T st).chunkLog, 1 ≤ e.2.2 ∧
        e.2.2 = min renderBlockSize (min (T - e.1)
          (nextEventSample timeline e.2.1 T - e.1))) := by
  intro m
  induction m with
  | zero =>
    intro st hm h1 h2 h3 h4 h5 h6
    have hcur : st.currentSample = T := by omega
    have hstop : sf2RenderLoop timeline T st = st := by
      rw [sf2RenderLoop, dif_neg (by omega)]
    have hidx : st.eventIndex = timeline.length := by
      by_contra hne
      have hlt : st.eventIndex < timeline.length := by omega
      have := h3 st.eventIndex hlt le_rfl
      have := (hpos _ (List.get_mem timeline st.eventIndex hlt)).2
      omega
    rw [hstop]
    refine ⟨hcur, ?_, h5, h6⟩
    rw [h4, hidx]
    exact List.take_length timeline
  | succ m ih =>
    intro st hm h1 h2 h3 h4 h5 h6
    by_cases h : st.currentSample < T
    · set next := nextEventSample timeline st.eventIndex T with hnextDef
      set blk := jminInt renderBlockSize
        (jminInt (T - st.currentSample) (jmaxInt 1 (next - st.currentSample))) with hblkDef
      set d := dispatchFrom timeline (st.currentSample + blk) st.eventIndex with hdDef
      have hstep : sf2RenderLoop timeline T st = sf2RenderLoop timeline T
          { currentSample := st.currentSample + blk
            eventIndex := d.1
            chunkLog := st.chunkLog ++ [(st.currentSample, st.eventIndex, blk)]
            dispatchLog := st.dispatchLog ++ d.2 } := by
        rw [sf2RenderLoop, dif_pos h]
      have hnext_gt : st.currentSample < next := by
        rw [hnextDef]
        unfold nextEventSample
        cases hq : timeline.get? st.eventIndex with
        | none => exact h
        | some ev =>
          obtain ⟨hlt, hget⟩ := List.get?_eq_some.mp hq
          have := h3 st.eventIndex hlt le_rfl
          rw [hget] at this
          exact this
      have hblk_eq : blk = min renderBlockSize (min (T - st.currentSample)
          (next - st.currentSample)) := by
        rw [hblkDef, jminInt_eq_min, jminInt_eq_min, jmaxInt_eq_max]
        have : max 1 (next - st.currentSample) = next - st.currentSample := by omega
        rw [this]
      have hblk_one : 1 ≤ blk := by
        rw [hblk_eq]
        have h512 : (1 : ℤ) ≤ renderBlockSize := by norm_num [renderBlockSize]
        omega
      have hnewle : st.currentSample + blk ≤ T := by
        rw [hblk_eq]
        have h512 : (1 : ℤ) ≤ renderBlockSize := by norm_num [renderBlockSize]
        omega
      have hnewnext : st.currentSample + blk ≤ next := by
        rw [hblk_eq]
        have h512 : (1 : ℤ) ≤ renderBlockSize := by norm_num [renderBlockSize]
        omega
      obtain ⟨d1, d2, d3, d4, d5⟩ :=
        dispatchFrom_spec timeline (st.currentSample + blk) st.eventIndex h2
      rw [← hdDef] at d1 d2 d3 d4 d5
      have hub : ∀ hlt : st.eventIndex < timeline.length,
          st.currentSample + blk ≤ (timeline.get ⟨st.eventIndex, hlt⟩).samplePos := by
        intro hlt
        have hn : (timeline.get ⟨st.eventIndex, hlt⟩).samplePos = next := by
          rw [hnextDef]
          unfold nextEventSample
          rw [List.get?_eq_get hlt]
        rw [hn]
        exact hnewnext
      have hentries := dispatchFrom_entries_eq timeline (st.currentSample + blk)
        st.eventIndex h2 hsorted hub
      rw [← hdDef] at hentries
      rw [hstep]
      refine ih _ (by dsimp only; omega) (by simpa using hnewle) (by simpa using d2) ?_ ?_ ?_ ?_
      · intro k hk hik
        simp only at hik ⊢
        rcases Nat.eq_or_lt_of_le hik with hik | hik
        · subst hik
          exact d4 hk
        · have hd1lt : d.1 < timeline.length := by omega
          have hmono := List.pairwise_iff_get.mp hsorted ⟨d.1, hd1lt⟩ ⟨k, hk⟩ (by exact hik)
          have := d4 hd1lt
          omega
      · simp only [List.map_append]
        rw [h4, d5, map_fst_map_pair]
        have hsplit : d.1 = st.eventIndex + (d.1 - st.eventIndex) := by omega
        rw [hsplit, List.take_add]
        have hsimp : st.eventIndex + (d.1 - st.eventIndex) - st.eventIndex =
            d.1 - st.eventIndex := by omega
        rw [hsimp]
      · intro p hp
        simp only [List.mem_append] at hp
        rcases hp with hp | hp
        · exact h5 p hp
        · obtain ⟨hp2, hp1⟩ := hentries p hp
          rw [hp2, hp1]
      · intro e he
        simp only [List.mem_append, List.mem_singleton] at he
        rcases he with he | he
        · exact h6 e he
        · subst he
          exact ⟨hblk_one, hblk_eq⟩
    · have hcur : st.currentSample = T := by omega
      have hstop : sf2RenderLoop timeline T st = st := by
        rw [sf2RenderLoop, dif_neg (by omega)]
      have hidx : st.eventIndex = timeline.length := by
        by_contra hne
        have hlt : st.eventIndex < timeline.length := by omega
        have := h3 st.eventIndex hlt le_rfl
        have := (hpos _ (List.get_mem timeline st.eventIndex hlt)).2
        omega
      rw [hstop]
      refine ⟨hcur, ?_, h5, h6⟩
      rw [h4, hidx]
      exact List.take_length timeline

/-- Termination facts of the event-driven chunk loop that need no
assumption on the timeline: the cursor reaches exactly `totalSamples`,
the event index never moves backwards and every logged chunk is at
least one frame long. -/
theorem sf2RenderLoop_term (timeline : List SF2Event) (T : ℤ) :
    ∀ (m : ℕ) (st : SF2RenderState), (T - st.currentSample).toNat ≤ m →
      st.currentSample ≤ T → st.eventIndex ≤ timeline.length →
      (sf2RenderLoop timeline T st).currentSample = T ∧
      st.eventIndex ≤ (sf2RenderLoop timeline T st).eventIndex ∧
      ((∀ e ∈ st.chunkLog, 1 ≤ e.2.2) →
        ∀ e ∈ (sf2RenderLoop timeline T st).chunkLog, 1 ≤ e.2.2) := by
  intro m
  induction m with
  | zero =>
    intro st hm h1 h2
    have hstop : sf2RenderLoop timeline T st = st := by
      rw [sf2RenderLoop, dif_neg (by omega)]
    rw [hstop]
    exact ⟨by omega, le_rfl, fun hh => hh⟩
  | succ m ih =>
    intro st hm h1 h2
    by_cases h : st.currentSample < T
    · set next := nextEventSample timeline st.eventIndex T with hnextDef
      set blk := jminInt renderBlockSize
        (jminInt (T - st.currentSample) (jmaxInt 1 (next - st.currentSample))) with hblkDef
      set d := dispatchFrom timeline (st.currentSample + blk) st.eventIndex with hdDef
      have hstep : sf2RenderLoop timeline T st = sf2RenderLoop timeline T
          { currentSample := st.currentSample + blk
            eventIndex := d.1
            chunkLog := st.chunkLog ++ [(st.currentSample, st.eventIndex, blk)]
            dispatchLog := st.dispatchLog ++ d.2 } := by
        rw [sf2RenderLoop, dif_pos h]
      have h512 : (1 : ℤ) ≤ renderBlockSize := by norm_num [renderBlockSize]
      have hblk_one : 1 ≤ blk := by
        rw [hblkDef, jminInt_eq_min, jminInt_eq_min, jmaxInt_eq_max]
        omega
      have hblk_rem : blk ≤ T - st.currentSample := by
        rw [hblkDef, jminInt_eq_min, jminInt_eq_min, jmaxInt_eq_max]
        omega
      obtain ⟨d1, d2, -, -, -⟩ :=
        dispatchFrom_spec timeline (st.currentSample + blk) st.eventIndex h2
      rw [← hdDef] at d1 d2
      rw [hstep]
      obtain ⟨c1, c2, c3⟩ := ih
        { currentSample := st.currentSample + blk
          eventIndex := d.1
          chunkLog := st.chunkLog ++ [(st.currentSample, st.eventIndex, blk)]
          dispatchLog := st.dispatchLog ++ d.2 }
        (by dsimp only; omega) (by dsimp only; omega) (by dsimp only; exact d2)
      refine ⟨c1, le_trans d1 (by simpa using c2), ?_⟩
      intro hch
      apply c3
      intro e he
      dsimp only at he
      rcases List.mem_append.mp he with he | he
      · exact hch e he
      · rw [List.mem_singleton] at he
        subst he
        exact hblk_one
    · have hstop : sf2RenderLoop timeline T st = st := by
        rw [sf2RenderLoop, dif_neg (by omega)]
      rw [hstop]
      exact ⟨by omega, le_rfl, fun hh => hh⟩

/-- Termination facts of the VST block loop: the cursor reaches exactly
`totalSamples`, the MIDI index never moves backwards and every block is
at least one frame long. -/
theorem pluginRenderLoop_term (positions : List ℤ) (T : ℤ) :
    ∀ (m : ℕ) (st : PluginRenderState), (T - st.currentSample).toNat ≤ m →
      st.currentSample ≤ T →
      (pluginRenderLoop positions T st).currentSample = T ∧
      st.midiIndex ≤ (pluginRenderLoop positions T st).midiIndex ∧
      ((∀ b ∈ st.blockLog, 1 ≤ b) →
        ∀ b ∈ (pluginRenderLoop positions T st).blockLog, 1 ≤ b) := by
  intro m
  induction m with
  | zero =>
    intro st hm h1
    have hstop : pluginRenderLoop positions T st = st := by
      rw [pluginRenderLoop, dif_neg (by omega)]
    rw [hstop]
    exact ⟨by omega, le_rfl, fun hh => hh⟩
  | succ m ih =>
    intro st hm h1
    by_cases h : st.currentSample < T
    · set blk := jminInt renderBlockSize (T - st.currentSample) with hblkDef
      have hstep : pluginRenderLoop positions T st = pluginRenderLoop positions T
          { currentSample := st.currentSample + blk
            midiIndex := midiIndexAfterBlock positions st.currentSample blk st.midiIndex
            blockLog := st.blockLog ++ [blk] } := by
        rw [pluginRenderLoop, dif_pos h]
      have h512 : (1 : ℤ) ≤ renderBlockSize := by norm_num [renderBlockSize]
      have hblk_one : 1 ≤ blk := by
        rw [hblkDef, jminInt_eq_min]
        omega
      have hblk_rem : blk ≤ T - st.currentSample := by
        rw [hblkDef, jminInt_eq_min]
        omega
      rw [hstep]
      obtain ⟨c1, c2, c3⟩ := ih
        { currentSample := st.currentSample + blk
          midiIndex := midiIndexAfterBlock positions st.currentSample blk st.midiIndex
          blockLog := st.blockLog ++ [blk] }
        (by dsimp only; omega) (by dsimp only; omega)
      refine ⟨c1, le_trans (midiIndexAfterBlock_ge positions st.currentSample blk
        st.midiIndex) (by simpa using c2), ?_⟩
      intro hbl
      apply c3
      intro b hb
      dsimp only at hb
      rcases List.mem_append.mp hb with hb | hb
      · exact hbl b hb
      · rw [List.mem_singleton] at hb
        subst hb
        exact hblk_one
    · have hstop : pluginRenderLoop positions T st = st := by
        rw [pluginRenderLoop, dif_neg (by omega)]
      rw [hstop]
      exact ⟨by omega, le_rfl, fun hh => hh⟩

/-- Claim C5: in the event-driven backend, for a sorted timeline with
positions inside `[0, totalSamples-1]`, every rendered chunk has length
`min (maxBlockSize, framesRemaining, framesUntilNextUnprocessedEvent)`;
after each chunk every timeline event at or before the new cursor has
been dispatched, in sorted order (the full dispatch sequence is exactly
the sorted timeline), and each NoteOn/NoteOff is dispatched when the
cursor equals its own sample position — not a block-grid position; the
loop continues until the cursor reaches exactly `totalSamples`. -/
theorem C5_event_driven_chunks (timeline : List SF2Event) (T : ℤ)
    (hsorted : List.Sorted (fun a b => a.samplePos ≤ b.samplePos) timeline)
    (hpos : ∀ ev ∈ timeline, 0 ≤ ev.samplePos ∧ ev.samplePos ≤ T - 1)
    (hT : 1 ≤ T) :
    (sf2Render timeline T).currentSample = T ∧
    (sf2Render timeline T).dispatchLog.map Prod.fst = timeline ∧
    (∀ p ∈ (sf2Render timeline T).dispatchLog, p.2 = p.1.samplePos) ∧
    (∀ e ∈ (sf2Render timeline T).chunkLog, 1 ≤ e.2.2 ∧
      e.2.2 = min renderBlockSize (min (T - e.1)
        (nextEventSample timeline e.2.1 T - e.1))) := by
  have hrender : sf2Render timeline T = sf2RenderLoop timeline T
      { currentSample := 0
        eventIndex := (dispatchFrom timeline 0 0).1
        chunkLog := []
        dispatchLog := (dispatchFrom timeline 0 0).2 } := rfl
  obtain ⟨d1, d2, d3, d4, d5⟩ := dispatchFrom_spec timeline 0 0 (by omega)
  have hub : ∀ hlt : (0 : ℕ) < timeline.length,
      (0 : ℤ) ≤ (timeline.get ⟨0, hlt⟩).samplePos :=
    fun hlt => (hpos _ (List.get_mem timeline 0 hlt)).1
  have hentries := dispatchFrom_entries_eq timeline 0 0 (by omega) hsorted hub
  rw [hrender]
  refine sf2RenderLoop_spec timeline T hsorted hpos (T - 0).toNat _
    le_rfl (by dsimp only; omega) d2
    ?_ ?_ ?_ (by intro e he; simp at he)
  · intro k hk hik
    dsimp only at hik ⊢
    rcases Nat.eq_or_lt_of_le hik with hik | hik
    · subst hik
      exact d4 hk
    · have hd1lt : (dispatchFrom timeline 0 0).1 < timeline.length := by omega
      have hmono := List.pairwise_iff_get.mp hsorted
        ⟨(dispatchFrom timeline 0 0).1, hd1lt⟩ ⟨k, hk⟩ (by exact hik)
      have := d4 hd1lt
      omega
  · dsimp only
    rw [d5, map_fst_map_pair]
    simp
  · intro p hp
    dsimp only at hp
    obtain ⟨hp2, hp1⟩ := hentries p hp
    rw [hp2, hp1]

/-- Witness for C5 at a concrete sorted two-event timeline. -/
theorem C5_event_driven_chunks_witness :
    List.Sorted (fun a b => a.samplePos ≤ b.samplePos)
      [(⟨0, true, 60, 1, 1⟩ : SF2Event), ⟨2, false, 60, 1, 1⟩] ∧
    (∀ ev ∈ [(⟨0, true, 60, 1, 1⟩ : SF2Event), ⟨2, false, 60, 1, 1⟩],
      0 ≤ ev.samplePos ∧ ev.samplePos ≤ (4 : ℤ) - 1) ∧
    (1 : ℤ) ≤ 4 ∧
    ((sf2Render [(⟨0, true, 60, 1, 1⟩ : SF2Event), ⟨2, false, 60, 1, 1⟩] 4).currentSample
        = 4 ∧
      (sf2Render [(⟨0, true, 60, 1, 1⟩ : SF2Event),
        ⟨2, false, 60, 1, 1⟩] 4).dispatchLog.map Prod.fst =
        [(⟨0, true, 60, 1, 1⟩ : SF2Event), ⟨2, false, 60, 1, 1⟩] ∧
      (∀ p ∈ (sf2Render [(⟨0, true, 60, 1, 1⟩ : SF2Event),
        ⟨2, false, 60, 1, 1⟩] 4).dispatchLog, p.2 = p.1.samplePos) ∧
      (∀ e ∈ (sf2Render [(⟨0, true, 60, 1, 1⟩ : SF2Event),
          ⟨2, false, 60, 1, 1⟩] 4).chunkLog, 1 ≤ e.2.2 ∧
        e.2.2 = min renderBlockSize (min ((4 : ℤ) - e.1)
          (nextEventSample [(⟨0, true, 60, 1, 1⟩ : SF2Event),
            ⟨2, false, 60, 1, 1⟩] e.2.1 4 - e.1)))) := by
  refine ⟨?_, ?_, by norm_num, ?_⟩
  · simp [List.Sorted]
  · intro ev hev
    rcases List.mem_cons.mp hev with h | h
    · subst h
      norm_num
    · rw [List.mem_singleton] at h
      subst h
      norm_num
  · exact C5_event_driven_chunks _ 4 (by simp [List.Sorted]) (by
      intro ev hev
      rcases List.mem_cons.mp hev with h | h
      · subst h
        norm_num
      · rw [List.mem_singleton] at h
        subst h
        norm_num) (by norm_num)

/-- Claim C10: the offline render loops terminate on every input: in the
event-driven chunk loop each iteration advances the cursor by at least
one frame (the chunk length is the minimum of the positive block size,
the positive frames remaining, and `max (1, framesUntilNextEvent)`),
the event dispatch index never moves backwards, and the cursor strictly
increases until it reaches exactly `totalSamples`; the VST block loop
likewise advances by `min (blockSize, remaining) ≥ 1` per block until
its cursor reaches `totalSamples`. -/
theorem C10_render_loops_terminate (timeline : List SF2Event) (positions : List ℤ)
    (T : ℤ) (hT : 0 < T) :
    (sf2Render timeline T).currentSample = T ∧
    (∀ e ∈ (sf2Render timeline T).chunkLog, 1 ≤ e.2.2) ∧
    (∀ (c : ℤ) (i : ℕ), i ≤ timeline.length → i ≤ (dispatchFrom timeline c i).1) ∧
    (pluginRenderLoop positions T ⟨0, 0, []⟩).currentSample = T ∧
    (∀ b ∈ (pluginRenderLoop positions T ⟨0, 0, []⟩).blockLog, 1 ≤ b) := by
  have hrender : sf2Render timeline T = sf2RenderLoop timeline T
      { currentSample := 0
        eventIndex := (dispatchFrom timeline 0 0).1
        chunkLog := []
        dispatchLog := (dispatchFrom timeline 0 0).2 } := rfl
  obtain ⟨-, hd2, -, -, -⟩ := dispatchFrom_spec timeline 0 0 (by omega)
  obtain ⟨s1, -, s3⟩ := sf2RenderLoop_term timeline T (T - 0).toNat
    { currentSample := 0
      eventIndex := (dispatchFrom timeline 0 0).1
      chunkLog := []
      dispatchLog := (dispatchFrom timeline 0 0).2 }
    le_rfl (by dsimp only; omega) hd2
  obtain ⟨p1, -, p3⟩ := pluginRenderLoop_term positions T (T - 0).toNat ⟨0, 0, []⟩
    le_rfl (by dsimp only; omega)
  refine ⟨by rw [hrender]; exact s1, ?_, ?_, p1, ?_⟩
  · rw [hrender]
    exact s3 (by intro e he; simp at he)
  · intro c i hi
    exact (dispatchFrom_spec timeline c i hi).1
  · exact p3 (by intro b hb; simp at hb)

/-- Witness for C10 at a concrete one-event timeline and totalSamples 2. -/
theorem C10_render_loops_terminate_witness :
    (0 : ℤ) < 2 ∧
    ((sf2Render [(⟨0, true, 60, 1, 1⟩ : SF2Event)] 2).currentSample = 2 ∧
      (∀ e ∈ (sf2Render [(⟨0, true, 60, 1, 1⟩ : SF2Event)] 2).chunkLog, 1 ≤ e.2.2) ∧
      (∀ (c : ℤ) (i : ℕ), i ≤ ([(⟨0, true, 60, 1, 1⟩ : SF2Event)]).length →
        i ≤ (dispatchFrom [(⟨0, true, 60, 1, 1⟩ : SF2Event)] c i).1) ∧
      (pluginRenderLoop [(0 : ℤ)] 2 ⟨0, 0, []⟩).currentSample = 2 ∧
      (∀ b ∈ (pluginRenderLoop [(0 : ℤ)] 2 ⟨0, 0, []⟩).blockLog, 1 ≤ b)) :=
  ⟨by norm_num,
    C10_render_loops_terminate [(⟨0, true, 60, 1, 1⟩ : SF2Event)] [(0 : ℤ)] 2 (by norm_num)⟩

end MelodyKit

